import Mathlib

/-!
Verification of the fastapi-stomp broker core: a shallow embedding of the
frame codec (util/frames.py), the in-memory queue store (store/memory.py),
the subscription registry (subscription.py), the queue and topic managers
(queue.py, topic.py), the engine (engine.py) and the STOMP 1.2 protocol
state machine (protocol.py), together with theorems settling the frozen
claims about the specification.

Strings are modelled as lists of characters (`Str`); Python dicts holding
frame headers are modelled as association lists with first-occurrence
update, which matches the insertion-ordered semantics of Python dicts.
Header values can be either strings or integers (`pack` inserts an integer
content-length via `setdefault`), mirrored by the `HVal` sum.
-/

set_option maxHeartbeats 1000000

abbrev Str := List Char

/-- Shorthand turning a Lean string literal into the character-list model. -/
def chars (s : String) : Str := s.data

/-- Whitespace predicate matching `str.strip()` for the ASCII range used by the broker. -/
def isWs (c : Char) : Bool :=
  c = ' ' || c = '\t' || c = '\n' || c = '\r' || c = '\x0b' || c = '\x0c'

/-- Removes trailing characters satisfying `p` (right-hand analogue of `dropWhile`). -/
def dropRightWhile (p : Char → Bool) (l : Str) : Str :=
  (l.reverse.dropWhile p).reverse

/-- Python `str.strip()`: drop leading and trailing whitespace. -/
def strip (l : Str) : Str :=
  dropRightWhile isWs (l.dropWhile isWs)

/-- Python `str.split(sep)` for a one-character separator: `splitOn '\n'`. -/
def splitOn (sep : Char) : Str → List Str
  | [] => [[]]
  | c :: cs =>
    if c = sep then [] :: splitOn sep cs
    else
      match splitOn sep cs with
      | [] => [[c]]
      | h :: t => (c :: h) :: t

/-- Python `str.find(ch)`: index of the first occurrence, `none` when absent
(the source tests the result for truthiness, so `-1` and `0` both matter). -/
def findIdx : Char → Str → Option Nat
  | _, [] => none
  | ch, c :: cs => if c = ch then some 0 else (findIdx ch cs).map (· + 1)

/-- Python `str.lower()` restricted to ASCII. -/
def lowerStr (l : Str) : Str := l.map Char.toLower

/-- A Python dict value appearing in frame headers: the codec produces strings,
while `Frame.pack` inserts the integer body length. -/
inductive HVal where
  | s (v : Str)
  | n (v : Nat)
deriving DecidableEq

/-- Python truthiness of a header value (`if not dest: ...`). -/
def HVal.truthy : HVal → Bool
  | .s v => v ≠ []
  | .n k => k ≠ 0

/-- Rendering of a header value by `str.format` during `pack`. -/
def HVal.render : HVal → Str
  | .s v => v
  | .n k => (Nat.repr k).data

/-- String view of a header value (used where the source passes the raw object on). -/
def HVal.asStr : HVal → Str
  | .s v => v
  | .n k => (Nat.repr k).data

abbrev Headers := List (Str × HVal)

/-- Python `dict.get`: the value stored for a key. -/
def dictGet (k : Str) : Headers → Option HVal
  | [] => none
  | (k', v) :: t => if k' = k then some v else dictGet k t

/-- Python `d[k] = v`: update the value in place when the key is present,
otherwise append at the end (insertion-ordered dict semantics). -/
def dictInsert (k : Str) (v : HVal) : Headers → Headers
  | [] => [(k, v)]
  | (k', v') :: t => if k' = k then (k', v) :: t else (k', v') :: dictInsert k v t

/-- Python `dict.setdefault`: insert at the end only when the key is absent. -/
def dictSetdefault (k : Str) (v : HVal) (h : Headers) : Headers :=
  match dictGet k h with
  | some _ => h
  | none => h ++ [(k, v)]

/-- Keys of a header dict. -/
def dictKeys (h : Headers) : List Str := h.map (·.1)

/-- A STOMP frame as in util/frames.py: command, headers, body. -/
structure Frame where
  cmd : Str
  headers : Headers
  body : Str
deriving DecidableEq

/-- The `head_data` helper of `parse_from_text`: split a header line at the
first colon; a line whose first colon is at index 0 is silently dropped
(`if index:` is false there), and a line with no colon at all takes the
Python `find` result `-1`, slicing `f[:-1]` for the name and `f[0:]` for the
value. Name and value are stripped twice, as in the source. -/
def headData (f : Str) (hs : Headers) : Headers :=
  match findIdx ':' f with
  | some 0 => hs
  | some i => dictInsert (strip (strip (f.take i))) (.s (strip (strip (f.drop (i + 1))))) hs
  | none => dictInsert (strip (strip f.dropLast)) (.s (strip (strip f))) hs

/-- The field loop of `parse_from_text`: headers until the first blank line,
body pieces afterwards; blank lines are skipped, body pieces are stripped
and dropped when empty. -/
def parseFields : List Str → Headers → List Str → Bool → Headers × List Str
  | [], hs, bs, _ => (hs, bs)
  | f :: rest, hs, bs, inBody =>
    if strip f = [] then parseFields rest hs bs true
    else if inBody then parseFields rest hs (bs ++ [strip f]) inBody
    else parseFields rest (headData f hs) bs inBody

/-- `parse_from_text`: split the text on LF, take the command line verbatim,
collect headers and body, join the body pieces and delete every NUL. -/
def parse_from_text (s : Str) : Str × Headers × Str :=
  match splitOn '\n' s with
  | [] => ([], [], [])
  | cmd :: rest =>
    let p := parseFields rest [] [] false
    (cmd, p.1, p.2.flatten.filter (fun c => c ≠ '\x00'))

/-- `Frame.from_text`. -/
def Frame.from_text (s : Str) : Frame :=
  let p := parse_from_text s
  ⟨p.1, p.2.1, p.2.2⟩

/-- The header block written by `pack`: each header as `name:value` plus LF. -/
def headerChunk : Headers → Str
  | [] => []
  | (k, v) :: t => k ++ ':' :: v.render ++ '\n' :: headerChunk t

/-- `Frame.pack`: `setdefault` the integer content-length (mutating the frame),
then command, headers, blank line, body, NUL. Returns the mutated frame
together with the serialized text. -/
def Frame.pack (fr : Frame) : Frame × Str :=
  let hs := dictSetdefault (chars "content-length") (.n fr.body.length) fr.headers
  (⟨fr.cmd, hs, fr.body⟩,
    fr.cmd ++ '\n' :: headerChunk hs ++ '\n' :: fr.body ++ ['\x00'])

/-- Python `Frame.__eq__`: equal command, dict-equal headers (order-insensitive),
equal body. -/
def Frame.eqPy (a b : Frame) : Bool :=
  a.cmd = b.cmd && a.body = b.body
    && a.headers.all (fun kv => dictGet kv.1 b.headers = some kv.2)
    && b.headers.all (fun kv => dictGet kv.1 a.headers = some kv.2)

/-!
## In-memory queue store (store/memory.py)

`AsyncMemoryQueue` keeps `defaultdict(deque)`; `enqueue` is `appendleft`,
`dequeue` is `pop` from the right, so the right end is the dequeue head.
Every access through `self._messages[destination]` creates the entry when
missing (defaultdict), including the read operations.
-/

abbrev MemStore := List (Str × List Frame)

/-- `defaultdict(deque)` access: return the deque for the key, creating an
empty entry when absent (entry appended in insertion order). -/
def storeAccess (st : MemStore) (d : Str) : List Frame × MemStore :=
  match dictFind st d with
  | some q => (q, st)
  | none => ([], st ++ [(d, [])])
where
  dictFind : MemStore → Str → Option (List Frame)
    | [], _ => none
    | (k, q) :: t, d => if k = d then some q else dictFind t d

/-- Replace the deque stored for a present key. -/
def storeSet : MemStore → Str → List Frame → MemStore
  | [], _, _ => []
  | (k, q) :: t, d, q' => if k = d then (d, q') :: t else (k, q) :: storeSet t d q'

namespace AsyncMemoryQueue

/-- `enqueue`: `self._messages[destination].appendleft(frame)`; the list head
is the left end of the deque. -/
def enqueue (d : Str) (f : Frame) (st : MemStore) : MemStore :=
  let a := storeAccess st d
  storeSet a.2 d (f :: a.1)

/-- `dequeue`: `self._messages[destination].pop()` from the right end,
returning `None` on an empty deque (and creating the entry when missing). -/
def dequeue (d : Str) (st : MemStore) : Option Frame × MemStore :=
  let a := storeAccess st d
  match a.1.getLast? with
  | some f => (some f, storeSet a.2 d a.1.dropLast)
  | none => (none, a.2)

/-- `size`: `len(self._messages[destination])` (creates the entry when missing). -/
def size (d : Str) (st : MemStore) : Nat × MemStore :=
  let a := storeAccess st d
  (a.1.length, a.2)

/-- `has_frames`: `bool(self._messages[destination])` (creates the entry when missing). -/
def has_frames (d : Str) (st : MemStore) : Bool × MemStore :=
  let a := storeAccess st d
  (a.1 ≠ [], a.2)

/-- `destinations`: `set(self._messages.keys())`. -/
def destinations (st : MemStore) : List Str := st.map (·.1)

end AsyncMemoryQueue

/-- `AsyncQueueStore.requeue`, the base-class default inherited by
`AsyncMemoryQueue`: simply `await self.enqueue(destination, frame)`. -/
def AsyncQueueStore.requeue (d : Str) (f : Frame) (st : MemStore) : MemStore :=
  AsyncMemoryQueue.enqueue d f st

/-!
## Subscription registry (subscription.py)

`AsyncSubscriptionManager` maps destination names to Python sets of
`AsyncSubscription(connection, id)`. Sets are modelled as duplicate-free
lists; `set.add` appends when absent.
-/

abbrev Conn := Nat

structure AsyncSubscription where
  connection : Conn
  id : Str
deriving DecidableEq

abbrev Registry := List (Str × List AsyncSubscription)

/-- Lookup of a registry bucket (`dict.get(destination, None)`). -/
def regGet (d : Str) : Registry → Option (List AsyncSubscription)
  | [] => none
  | (k, b) :: t => if k = d then some b else regGet d t

/-- Replace the bucket of a present destination. -/
def regSet (d : Str) (b : List AsyncSubscription) : Registry → Registry
  | [] => []
  | (k, b') :: t => if k = d then (d, b) :: t else (k, b') :: regSet d b t

/-- Remove a destination key (`del self._subscriptions[destination]`). -/
def regDel (d : Str) : Registry → Registry
  | [] => []
  | (k, b) :: t => if k = d then t else (k, b) :: regDel d t

namespace AsyncSubscriptionManager

/-- `subscribe`: `self._subscriptions[destination].add(subscription)` on a
`defaultdict(set)` — creates the bucket when absent, set-add is a no-op on
a member. -/
def subscribe (c : Conn) (d : Str) (i : Str) (r : Registry) : Registry :=
  let sub : AsyncSubscription := ⟨c, i⟩
  match regGet d r with
  | some b => if sub ∈ b then r else regSet d (b ++ [sub]) r
  | none => r ++ [(d, [sub])]

/-- `unsubscribe`: remove the exact `(connection, id)` member when present
(`KeyError` is swallowed), delete the destination key when the set becomes
empty; no bucket is created for an unknown destination. -/
def unsubscribe (c : Conn) (d : Str) (i : Str) (r : Registry) : Registry :=
  let sub : AsyncSubscription := ⟨c, i⟩
  match regGet d r with
  | none => r
  | some b =>
    let b' := b.filter (fun x => x ≠ sub)
    if b' = [] then regDel d r else regSet d b' r

/-- `disconnect`: drop every subscription of the connection across all
destinations, deleting destinations whose set becomes empty. -/
def disconnect (c : Conn) (r : Registry) : Registry :=
  r.foldr
    (fun p acc =>
      let b' := p.2.filter (fun x => x.connection ≠ c)
      if b' = [] then acc else (p.1, b') :: acc)
    []

/-- `subscribers`: `self._subscriptions.get(destination, set())`. -/
def subscribers (d : Str) (r : Registry) : List AsyncSubscription :=
  match regGet d r with
  | some b => b
  | none => []

end AsyncSubscriptionManager

/-!
## Exceptions, connection events and environment

`send_frame` on a connection may raise; which connections fail is part of
the environment. Every frame handed to `send_frame` is recorded as an
event, raising or not, which models the invocation itself.
-/

/-- Python exception kinds raised inside the broker core, with the text used
for `str(e)` (frame reprs inside messages are elided). -/
inductive Exc where
  | protocol (msg : Str)
  | auth (msg : Str)
  | valueError (msg : Str)
  | attrError (msg : Str)
  | sendFailed (msg : Str)
deriving DecidableEq

/-- `str(e)` for an exception. -/
def Exc.msg : Exc → Str
  | .protocol m => m
  | .auth m => m
  | .valueError m => m
  | .attrError m => m
  | .sendFailed m => m

/-- One `send_frame` invocation: target connection and the frame handed over. -/
abbrev Event := Conn × Frame

/-- Environment of a processing step: the authenticator verdict per token,
which connections raise from `send_frame`, the fresh uuid strings drawn in
this step, and the pluggable subscriber scheduler. -/
structure Env where
  auth : Str → Bool
  fails : Conn → Bool
  freshMsgId : Str
  freshSession : Str
  sched : List AsyncSubscription → Frame → Option AsyncSubscription

/-!
## Queue manager (queue.py)
-/

/-- State of `AsyncQueueManager`: its private subscription registry, the
`pending` map from subscription to the single in-flight frame, and the
backing store (the repository's in-memory store). -/
structure QMState where
  registry : Registry
  pending : List (AsyncSubscription × Frame)
  store : MemStore
deriving DecidableEq

/-- Membership of a subscription in the `pending` dict (`s not in self._pending`). -/
def pendingKeys (p : List (AsyncSubscription × Frame)) : List AsyncSubscription :=
  p.map (·.1)

/-- Truthy `destination` header of a frame, as the queue manager reads it
(`message.headers.get('destination')` followed by a truthiness test). -/
def getDest (f : Frame) : Option Str :=
  match dictGet (chars "destination") f.headers with
  | some v => if v.truthy then some v.asStr else none
  | none => none

namespace AsyncQueueManager

/-- `_send_frame`: set the `subscription` header when the command is
`message`, then `send_frame` on the subscription's connection; the
invocation is recorded and raises when the connection fails. -/
def sendFrameToSub (env : Env) (sub : AsyncSubscription) (f : Frame) :
    Frame × List Event × Option Exc :=
  let f' := if f.cmd = chars "message"
    then { f with headers := dictInsert (chars "subscription") (.s sub.id) f.headers }
    else f
  (f', [(sub.connection, f')],
    if env.fails sub.connection then some (.sendFailed (chars "send_frame failed")) else none)

/-- Result of `AsyncQueueManager.send`: final manager state, the `send_frame`
invocations, the mutated message object, and the exception if one escaped. -/
structure SendRes where
  st : QMState
  evs : List Event
  frame : Frame
  err : Option Exc
deriving DecidableEq

/-- `send`: require a truthy destination, set the command to `message`,
`setdefault` a fresh `message-id`, compute the subscribers without a
pending frame; store the message when none, otherwise deliver to the
scheduler's pick. -/
def send (env : Env) (st : QMState) (m : Frame) : SendRes :=
  match getDest m with
  | none => ⟨st, [], m, some (.valueError (chars "Cannot send frame with no destination"))⟩
  | some dest =>
    let m' : Frame :=
      { cmd := chars "message",
        headers := dictSetdefault (chars "message-id") (.s env.freshMsgId) m.headers,
        body := m.body }
    let eligible := (AsyncSubscriptionManager.subscribers dest st.registry).filter
      (fun s => s ∉ pendingKeys st.pending)
    if eligible = [] then
      ⟨{ st with store := AsyncMemoryQueue.enqueue dest m' st.store }, [], m', none⟩
    else
      match env.sched eligible m' with
      | some sel =>
        let r := sendFrameToSub env sel m'
        ⟨st, r.2.1, r.1, r.2.2⟩
      | none =>
        -- `_send_frame` begins with `assert subscription is not None`
        ⟨st, [], m', some (.valueError (chars "assert subscription is not None"))⟩

/-- `AsyncQueueManager.subscribe` delegates to the registry. -/
def subscribe (c : Conn) (d : Str) (i : Str) (st : QMState) : QMState :=
  { st with registry := AsyncSubscriptionManager.subscribe c d i st.registry }

/-- `AsyncQueueManager.unsubscribe` delegates to the registry. -/
def unsubscribe (c : Conn) (d : Str) (i : Str) (st : QMState) : QMState :=
  { st with registry := AsyncSubscriptionManager.unsubscribe c d i st.registry }

/-- `AsyncQueueManager.disconnect`: requeue every pending frame of the
connection to its destination, drop those pending entries, then disconnect
the connection from the registry. -/
def disconnect (c : Conn) (st : QMState) : QMState :=
  let mine := st.pending.filter (fun p => p.1.connection = c)
  { registry := AsyncSubscriptionManager.disconnect c st.registry,
    pending := st.pending.filter (fun p => p.1.connection ≠ c),
    store := mine.foldl
      (fun acc p =>
        AsyncQueueStore.requeue
          (match dictGet (chars "destination") p.2.headers with
           | some v => v.asStr
           | none => [])
          p.2 acc)
      st.store }

end AsyncQueueManager

/-!
## Topic manager (topic.py)
-/

namespace AsyncTopicManager

/-- The fan-out loop of `AsyncTopicManager.send`: deliver a deep copy with
the `subscription` header set to each subscriber in turn, collecting the
subscribers whose `send_frame` raised. -/
def fanout (env : Env) (m : Frame) :
    List AsyncSubscription → List Event × List AsyncSubscription
  | [] => ([], [])
  | s :: rest =>
    let copy : Frame := { m with headers := dictInsert (chars "subscription") (.s s.id) m.headers }
    let r := fanout env m rest
    ((s.connection, copy) :: r.1, if env.fails s.connection then s :: r.2 else r.2)

/-- `AsyncTopicManager.send`: require a truthy destination, set the command
to `message`, `setdefault` a fresh `message-id`, send a copy to every
subscriber (failures collected, not raised), then unsubscribe every failed
subscriber from this destination. -/
def send (env : Env) (reg : Registry) (m : Frame) :
    Registry × List Event × Frame × Option Exc :=
  match getDest m with
  | none => (reg, [], m, some (.valueError (chars "Cannot send frame with no destination")))
  | some dest =>
    let m' : Frame :=
      { cmd := chars "message",
        headers := dictSetdefault (chars "message-id") (.s env.freshMsgId) m.headers,
        body := m.body }
    let r := fanout env m' (AsyncSubscriptionManager.subscribers dest reg)
    let reg' := r.2.foldl
      (fun acc s => AsyncSubscriptionManager.unsubscribe s.connection dest s.id acc) reg
    (reg', r.1, m', none)

end AsyncTopicManager

/-!
## Engine (engine.py) and protocol state machine (protocol.py)
-/

/-- `AsyncStompEngine` for one session: its connection, the connected flag,
the queue manager state and the topic manager's registry. -/
structure Engine where
  conn : Conn
  connected : Bool
  queue : QMState
  topic : Registry
deriving DecidableEq

/-- `AsyncStompEngine.unbind`: the source sets `self.connected = False` and
then calls the coroutine functions `queue_manager.disconnect(connection)`
and `topic_manager.disconnect(connection)` WITHOUT awaiting them, so the
coroutine objects are created and discarded and neither cleanup runs; the
only state change is the flag. -/
def AsyncStompEngine.unbind (e : Engine) : Engine :=
  { e with connected := false }

/-- `VALID_COMMANDS` from util/frames.py, verbatim and in order. -/
def VALID_COMMANDS : List Str :=
  [chars "message", chars "connect", chars "connected", chars "error",
   chars "send", chars "subscribe", chars "unsubscribe", chars "begin",
   chars "commit", chars "abort", chars "ack", chars "disconnect",
   chars "nack"]

/-- `ErrorFrame(message, body)`: command `error`, `message` header, lazily
computed `content-length` (rendered as the body length). -/
def mkErrorFrame (msg body : Str) : Frame :=
  ⟨chars "error",
   [(chars "message", .s msg), (chars "content-length", .n body.length)],
   body⟩

/-- `ReceiptFrame(receipt)`: command `RECEIPT` with the raw `receipt` header
value echoed as `receipt-id`. -/
def mkReceiptFrame (v : HVal) : Frame :=
  ⟨chars "RECEIPT", [(chars "receipt-id", v)], []⟩

/-- The ERROR frame sent by `_check_protocol`: command `ERROR`, headers
`version: 1.2` and `content-type: text/plain`. -/
def mkVersionErrorFrame (body : Str) : Frame :=
  ⟨chars "ERROR",
   [(chars "version", .s (chars "1.2")), (chars "content-type", .s (chars "text/plain"))],
   body⟩

/-- The CONNECTED response of `_connect`: `Frame(frames.CONNECTED)` with the
fresh session uuid set afterwards. -/
def mkConnectedFrame (session : Str) : Frame :=
  ⟨chars "CONNECTED", [(chars "session", .s session)], []⟩

/-- Result of running one handler: engine state reached, `send_frame`
invocations so far, the (possibly mutated) incoming frame object, and the
exception escaping the handler if any. State changes and events made
before a raise persist, as in Python. -/
structure HRes where
  eng : Engine
  evs : List Event
  frame : Frame
  err : Option Exc
deriving DecidableEq

/-- `_check_protocol` followed by the rest of `_connect`. A missing
`accept-version` sends the version ERROR and then crashes with
`AttributeError` on `None.split(',')`; a present value that does not list
`1.2` sends the version ERROR and FALLS THROUGH, so the connect proceeds.
Then the `token` walrus test: missing/falsy raises `AuthError`, a rejected
token raises `AuthError`, otherwise `connected = True` and the CONNECTED
frame with the fresh session id is sent. -/
def pConnect (env : Env) (eng : Engine) (f : Frame) : HRes :=
  match dictGet (chars "accept-version") f.headers with
  | none =>
    ⟨eng, [(eng.conn, mkVersionErrorFrame
        (chars "No protocol version specified, specify 'accept-version' header"))],
      f, some (.attrError (chars "'NoneType' object has no attribute 'split'"))⟩
  | some v =>
    match v with
    | .n _ =>
      ⟨eng, if v.truthy then [] else [(eng.conn, mkVersionErrorFrame
          (chars "No protocol version specified, specify 'accept-version' header"))],
        f, some (.attrError (chars "'int' object has no attribute 'split'"))⟩
    | .s vs =>
      let evs1 : List Event := if vs = [] then [(eng.conn, mkVersionErrorFrame
          (chars "No protocol version specified, specify 'accept-version' header"))] else []
      let evs2 : List Event :=
        if chars "1.2" ∈ splitOn ',' vs then evs1
        else evs1 ++ [(eng.conn, mkVersionErrorFrame
          (chars "Supported protocol versions are 1.2"))]
      match dictGet (chars "token") f.headers with
      | some tok =>
        if tok.truthy then
          if env.auth tok.asStr then
            let evs3 := evs2 ++ [(eng.conn, mkConnectedFrame env.freshSession)]
            ⟨{ eng with connected := true }, evs3, f,
              if env.fails eng.conn then some (.sendFailed (chars "send_frame failed")) else none⟩
          else ⟨eng, evs2, f, some (.auth (chars "Authentication from token failed"))⟩
        else ⟨eng, evs2, f, some (.auth (chars "Token is missing in the headers"))⟩
      | none => ⟨eng, evs2, f, some (.auth (chars "Token is missing in the headers"))⟩

/-- `_send`: require a truthy destination, then route by the `/queue/`
destination prefix to the queue manager or the topic manager. -/
def pSend (env : Env) (eng : Engine) (f : Frame) : HRes :=
  match getDest f with
  | none => ⟨eng, [], f, some (.protocol (chars "Missing destination for SEND command."))⟩
  | some d =>
    if (chars "/queue/").isPrefixOf d then
      let r := AsyncQueueManager.send env eng.queue f
      ⟨{ eng with queue := r.st }, r.evs, r.frame, r.err⟩
    else
      let r := AsyncTopicManager.send env eng.topic f
      ⟨{ eng with topic := r.1 }, r.2.1, r.2.2.1, r.2.2.2⟩

/-- `_subscribe`: require an `id` header and a truthy destination, then route
by prefix to the queue or topic manager, both of which delegate to their
registries. -/
def pSubscribe (eng : Engine) (f : Frame) : HRes :=
  match dictGet (chars "id") f.headers with
  | none => ⟨eng, [], f, some (.protocol (chars "No 'id' specified for SUBSCRIBE command."))⟩
  | some i =>
    match getDest f with
    | none => ⟨eng, [], f, some (.protocol (chars "Missing destination for SUBSCRIBE command."))⟩
    | some d =>
      if (chars "/queue/").isPrefixOf d then
        ⟨{ eng with queue := AsyncQueueManager.subscribe eng.conn d i.asStr eng.queue }, [], f, none⟩
      else
        ⟨{ eng with topic := AsyncSubscriptionManager.subscribe eng.conn d i.asStr eng.topic }, [], f, none⟩

/-- `_unsubscribe`: symmetric to `_subscribe`. -/
def pUnsubscribe (eng : Engine) (f : Frame) : HRes :=
  match dictGet (chars "id") f.headers with
  | none => ⟨eng, [], f, some (.protocol (chars "No 'id' specified for UNSUBSCRIBE command."))⟩
  | some i =>
    match getDest f with
    | none => ⟨eng, [], f, some (.protocol (chars "Missing destination for UNSUBSCRIBE command."))⟩
    | some d =>
      if (chars "/queue/").isPrefixOf d then
        ⟨{ eng with queue := AsyncQueueManager.unsubscribe eng.conn d i.asStr eng.queue }, [], f, none⟩
      else
        ⟨{ eng with topic := AsyncSubscriptionManager.unsubscribe eng.conn d i.asStr eng.topic }, [], f, none⟩

/-- `_disconnect`: `self._engine.unbind()`. -/
def pDisconnect (eng : Engine) (f : Frame) : HRes :=
  ⟨AsyncStompEngine.unbind eng, [], f, none⟩

/-- The handler methods `process_frame` can resolve via `getattr`: only
these five commands have a method of the matching name. -/
inductive HKind where
  | hConnect | hSend | hSubscribe | hUnsubscribe | hDisconnect
deriving DecidableEq

/-- Method resolution of `process_frame`: `getattr(self, cmd)` or
`getattr(self, '_' + cmd)`; `stomp` never reaches resolution because it is
missing from `VALID_COMMANDS`, and the remaining recognized commands have
no method. -/
def handlerFor (c : Str) : Option HKind :=
  if c = chars "connect" then some .hConnect
  else if c = chars "send" then some .hSend
  else if c = chars "subscribe" then some .hSubscribe
  else if c = chars "unsubscribe" then some .hUnsubscribe
  else if c = chars "disconnect" then some .hDisconnect
  else none

/-- Run the resolved handler. -/
def runHandler (env : Env) (eng : Engine) (f : Frame) : HKind → HRes
  | .hConnect => pConnect env eng f
  | .hSend => pSend env eng f
  | .hSubscribe => pSubscribe eng f
  | .hUnsubscribe => pUnsubscribe eng f
  | .hDisconnect => pDisconnect eng f

/-- The handler invocation a frame reaches from `process_frame`, identity
when dispatch rejects the frame before any handler runs. -/
def handlerRun (env : Env) (eng : Engine) (f : Frame) : HRes :=
  match handlerFor (lowerStr f.cmd) with
  | some h => runHandler env eng f h
  | none => ⟨eng, [], f, none⟩

/-- Result of `process_frame`: state, `send_frame` invocations, and the
exception propagated to the caller if any. -/
structure PRes where
  eng : Engine
  evs : List Event
  err : Option Exc
deriving DecidableEq

/-- `AsyncSTOMP12.process_frame`: reject commands outside `VALID_COMMANDS`
(ProtocolError propagates), reject any command except connect while not
connected, reject recognized commands without a handler method; then run
the handler inside try/except: a raising handler is answered with an
`ErrorFrame(str(e), str(e))` (failures of that send are swallowed), a
succeeding handler is followed by a RECEIPT when the (possibly mutated)
frame has a truthy `receipt` header and the method is not `_connect`
(a raising receipt send propagates). -/
def process_frame (env : Env) (eng : Engine) (f : Frame) : PRes :=
  let c := lowerStr f.cmd
  if c ∉ VALID_COMMANDS then
    ⟨eng, [], some (.protocol (chars "Invalid STOMP command: " ++ f.cmd))⟩
  else
    let m? := handlerFor c
    if ¬ eng.connected ∧ m? ≠ some .hConnect then
      ⟨eng, [], some (.protocol (chars "Not connected, send CONNECT frame first"))⟩
    else
      match m? with
      | none =>
        ⟨eng, [], some (.protocol
          (chars "Invalid STOMP command: " ++ f.cmd ++ chars ", server does not support specified command"))⟩
      | some h =>
        let r := runHandler env eng f h
        match r.err with
        | some e =>
          ⟨r.eng, r.evs ++ [(eng.conn, mkErrorFrame e.msg e.msg)], none⟩
        | none =>
          match dictGet (chars "receipt") r.frame.headers with
          | some v =>
            if v.truthy ∧ h ≠ .hConnect then
              ⟨r.eng, r.evs ++ [(eng.conn, mkReceiptFrame v)],
                if env.fails eng.conn then some (.sendFailed (chars "send_frame failed")) else none⟩
            else ⟨r.eng, r.evs, none⟩
          | none => ⟨r.eng, r.evs, none⟩

/-- Count of RECEIPT frames among a list of `send_frame` invocations. -/
def receiptCount (evs : List Event) : Nat :=
  (evs.filter (fun ev => ev.2.cmd = chars "RECEIPT")).length

/-!
## Helper lemmas on the store model
-/

theorem storeAccess_dictFind_none {st : MemStore} {d : Str}
    (h : storeAccess.dictFind st d = none) : storeAccess st d = ([], st ++ [(d, [])]) := by
  simp [storeAccess, h]

theorem storeAccess_dictFind_some {st : MemStore} {d : Str} {q : List Frame}
    (h : storeAccess.dictFind st d = some q) : storeAccess st d = (q, st) := by
  simp [storeAccess, h]

theorem dictFind_none_of_not_mem {st : MemStore} {d : Str}
    (h : d ∉ st.map (·.1)) : storeAccess.dictFind st d = none := by
  induction st with
  | nil => rfl
  | cons p t ih =>
    simp only [List.map_cons, List.mem_cons, not_or] at h
    have h1 : ¬ p.1 = d := fun hh => h.1 hh.symm
    simp [storeAccess.dictFind, h1, ih h.2]

theorem dictFind_append_self {st : MemStore} {d : Str}
    (h : storeAccess.dictFind st d = none) :
    storeAccess.dictFind (st ++ [(d, [])]) d = some [] := by
  induction st with
  | nil => simp [storeAccess.dictFind]
  | cons p t ih =>
    by_cases hp : p.1 = d
    · simp [storeAccess.dictFind, hp] at h
    · simp only [storeAccess.dictFind, hp, if_neg hp] at h ⊢
      exact ih h

theorem dictFind_storeSet_self {st : MemStore} {d : Str} {q0 q : List Frame}
    (h : storeAccess.dictFind st d = some q0) :
    storeAccess.dictFind (storeSet st d q) d = some q := by
  induction st with
  | nil => simp [storeAccess.dictFind] at h
  | cons p t ih =>
    obtain ⟨k, q'⟩ := p
    by_cases hp : k = d
    · subst hp
      simp [storeAccess.dictFind, storeSet]
    · simp only [storeAccess.dictFind, if_neg hp] at h
      simp [storeSet, if_neg hp, storeAccess.dictFind, ih h]

theorem storeAccess_found (st : MemStore) (d : Str) :
    storeAccess.dictFind (storeAccess st d).2 d = some (storeAccess st d).1 := by
  cases h : storeAccess.dictFind st d with
  | none => rw [storeAccess_dictFind_none h]; exact dictFind_append_self h
  | some q => rw [storeAccess_dictFind_some h]; exact h

/-- C10: on the in-memory store, the read operations `dequeue`, `size` and
`has_frames` on a never-enqueued destination create an empty entry through
the defaultdict access, so the destination afterwards appears in
`destinations()`. -/
theorem c10_reads_create_destination (st : MemStore) (d : Str)
    (h : d ∉ AsyncMemoryQueue.destinations st) :
    (AsyncMemoryQueue.dequeue d st).2 = st ++ [(d, [])] ∧
    (AsyncMemoryQueue.size d st).2 = st ++ [(d, [])] ∧
    (AsyncMemoryQueue.has_frames d st).2 = st ++ [(d, [])] ∧
    d ∈ AsyncMemoryQueue.destinations (AsyncMemoryQueue.dequeue d st).2 ∧
    d ∈ AsyncMemoryQueue.destinations (AsyncMemoryQueue.size d st).2 ∧
    d ∈ AsyncMemoryQueue.destinations (AsyncMemoryQueue.has_frames d st).2 := by
  have hn : storeAccess.dictFind st d = none :=
    dictFind_none_of_not_mem (by simpa [AsyncMemoryQueue.destinations] using h)
  have ha := storeAccess_dictFind_none hn
  have hmem : d ∈ AsyncMemoryQueue.destinations (st ++ [(d, [])]) := by
    simp [AsyncMemoryQueue.destinations]
  refine ⟨?_, ?_, ?_, ?_, ?_, ?_⟩ <;>
    simp [AsyncMemoryQueue.dequeue, AsyncMemoryQueue.size, AsyncMemoryQueue.has_frames,
      ha, hmem, AsyncMemoryQueue.destinations]

/-- Witness for C10 at a concrete store and destination. -/
theorem c10_reads_create_destination_witness :
    chars "/queue/x" ∉ AsyncMemoryQueue.destinations [(chars "/queue/a", [])] ∧
    ((AsyncMemoryQueue.dequeue (chars "/queue/x") [(chars "/queue/a", [])]).2 =
        [(chars "/queue/a", [])] ++ [(chars "/queue/x", [])] ∧
      (AsyncMemoryQueue.size (chars "/queue/x") [(chars "/queue/a", [])]).2 =
        [(chars "/queue/a", [])] ++ [(chars "/queue/x", [])] ∧
      (AsyncMemoryQueue.has_frames (chars "/queue/x") [(chars "/queue/a", [])]).2 =
        [(chars "/queue/a", [])] ++ [(chars "/queue/x", [])] ∧
      chars "/queue/x" ∈ AsyncMemoryQueue.destinations
        (AsyncMemoryQueue.dequeue (chars "/queue/x") [(chars "/queue/a", [])]).2 ∧
      chars "/queue/x" ∈ AsyncMemoryQueue.destinations
        (AsyncMemoryQueue.size (chars "/queue/x") [(chars "/queue/a", [])]).2 ∧
      chars "/queue/x" ∈ AsyncMemoryQueue.destinations
        (AsyncMemoryQueue.has_frames (chars "/queue/x") [(chars "/queue/a", [])]).2) :=
  ⟨by decide, c10_reads_create_destination [(chars "/queue/a", [])] (chars "/queue/x") (by decide)⟩

/-- C2 counterexample: with a frame already enqueued, a requeued frame is NOT
returned by the next dequeue — `requeue` is the inherited base-class default
`enqueue`, an `appendleft` on the deque whose dequeue end is the right. -/
theorem c2_requeue_head_counterexample :
    (AsyncMemoryQueue.dequeue (chars "/queue/a")
      (AsyncQueueStore.requeue (chars "/queue/a") ⟨chars "message", [], chars "f"⟩
        (AsyncMemoryQueue.enqueue (chars "/queue/a") ⟨chars "message", [], chars "g"⟩ []))).1 =
      some ⟨chars "message", [], chars "g"⟩ ∧
    (⟨chars "message", [], chars "g"⟩ : Frame) ≠ ⟨chars "message", [], chars "f"⟩ := by
  constructor
  · rfl
  · decide

/-- C2 amended: `requeue` has exactly the effect of `enqueue` — a tail
insertion relative to the dequeue order — so the requeued frame is returned
by the next dequeue only when the destination's deque was empty at requeue
time. -/
theorem c2_requeue_is_tail_insert (st : MemStore) (d : Str) (f : Frame) :
    AsyncQueueStore.requeue d f st = AsyncMemoryQueue.enqueue d f st ∧
    ((storeAccess st d).1 = [] →
      (AsyncMemoryQueue.dequeue d (AsyncQueueStore.requeue d f st)).1 = some f) := by
  refine ⟨rfl, fun h => ?_⟩
  have hfound := storeAccess_found st d
  rw [h] at hfound
  have hset : storeAccess.dictFind
      (storeSet (storeAccess st d).2 d [f]) d = some [f] :=
    dictFind_storeSet_self hfound
  simp only [AsyncQueueStore.requeue, AsyncMemoryQueue.enqueue, h,
    AsyncMemoryQueue.dequeue, storeAccess_dictFind_some hset]
  rfl

/-- Witness for C2 at a concrete empty store. -/
theorem c2_requeue_is_tail_insert_witness :
    (storeAccess [] (chars "/queue/a")).1 = [] ∧
    (AsyncQueueStore.requeue (chars "/queue/a") ⟨chars "message", [], chars "f"⟩ [] =
        AsyncMemoryQueue.enqueue (chars "/queue/a") ⟨chars "message", [], chars "f"⟩ [] ∧
      ((storeAccess [] (chars "/queue/a")).1 = [] →
        (AsyncMemoryQueue.dequeue (chars "/queue/a")
          (AsyncQueueStore.requeue (chars "/queue/a") ⟨chars "message", [], chars "f"⟩ [])).1 =
          some ⟨chars "message", [], chars "f"⟩)) :=
  ⟨by decide, c2_requeue_is_tail_insert [] (chars "/queue/a") ⟨chars "message", [], chars "f"⟩⟩

/-!
## Registry helper lemmas
-/

theorem regGet_regSet_self {r : Registry} {d : Str} {b0 b : List AsyncSubscription}
    (h : regGet d r = some b0) : regGet d (regSet d b r) = some b := by
  induction r with
  | nil => simp [regGet] at h
  | cons p t ih =>
    obtain ⟨k, q⟩ := p
    by_cases hp : k = d
    · subst hp; simp [regGet, regSet]
    · simp only [regGet, if_neg hp] at h
      simp [regSet, if_neg hp, regGet, ih h]

theorem regGet_append_self {r : Registry} {d : Str} {b : List AsyncSubscription}
    (h : regGet d r = none) : regGet d (r ++ [(d, b)]) = some b := by
  induction r with
  | nil => simp [regGet]
  | cons p t ih =>
    obtain ⟨k, q⟩ := p
    by_cases hp : k = d
    · simp [regGet, hp] at h
    · simp only [List.cons_append, regGet, if_neg hp] at h ⊢
      exact ih h

theorem clean_regSet {r : Registry} {d : Str} {b : List AsyncSubscription}
    (hc : ∀ p ∈ r, p.2 ≠ []) (hb : b ≠ []) : ∀ p ∈ regSet d b r, p.2 ≠ [] := by
  induction r with
  | nil => simp [regSet]
  | cons q t ih =>
    obtain ⟨k, w⟩ := q
    intro p hp
    by_cases hk : k = d
    · simp only [regSet, if_pos hk] at hp
      rcases List.mem_cons.1 hp with hp | hp
      · rw [hp]; exact hb
      · exact hc p (List.mem_cons_of_mem _ hp)
    · simp only [regSet, if_neg hk] at hp
      rcases List.mem_cons.1 hp with hp | hp
      · rw [hp]; exact hc _ (List.mem_cons_self _ _)
      · exact ih (fun x hx => hc x (List.mem_cons_of_mem _ hx)) p hp

theorem clean_regDel {r : Registry} {d : Str}
    (hc : ∀ p ∈ r, p.2 ≠ []) : ∀ p ∈ regDel d r, p.2 ≠ [] := by
  induction r with
  | nil => simp [regDel]
  | cons q t ih =>
    obtain ⟨k, w⟩ := q
    intro p hp
    by_cases hk : k = d
    · simp only [regDel, if_pos hk] at hp
      exact hc p (List.mem_cons_of_mem _ hp)
    · simp only [regDel, if_neg hk] at hp
      rcases List.mem_cons.1 hp with hp | hp
      · rw [hp]; exact hc _ (List.mem_cons_self _ _)
      · exact ih (fun x hx => hc x (List.mem_cons_of_mem _ hx)) p hp

theorem clean_subscribe {r : Registry} (c : Conn) (d i : Str)
    (hc : ∀ p ∈ r, p.2 ≠ []) :
    ∀ p ∈ AsyncSubscriptionManager.subscribe c d i r, p.2 ≠ [] := by
  intro p hp
  simp only [AsyncSubscriptionManager.subscribe] at hp
  split at hp
  next bfound heq =>
    split at hp
    · exact hc p hp
    · exact clean_regSet hc (by simp) p hp
  next heq =>
    rcases List.mem_append.1 hp with hp | hp
    · exact hc p hp
    · rw [List.mem_singleton] at hp
      rw [hp]; simp

theorem clean_unsubscribe {r : Registry} (c : Conn) (d i : Str)
    (hc : ∀ p ∈ r, p.2 ≠ []) :
    ∀ p ∈ AsyncSubscriptionManager.unsubscribe c d i r, p.2 ≠ [] := by
  intro p hp
  simp only [AsyncSubscriptionManager.unsubscribe] at hp
  split at hp
  next heq => exact hc p hp
  next bfound heq =>
    split at hp
    next hb => exact clean_regDel hc p hp
    next hb => exact clean_regSet hc hb p hp

theorem clean_disconnect {r : Registry} (c : Conn) :
    ∀ p ∈ AsyncSubscriptionManager.disconnect c r, p.2 ≠ [] := by
  unfold AsyncSubscriptionManager.disconnect
  induction r with
  | nil => intro p hp; cases hp
  | cons q t ih =>
    intro p hp
    simp only [List.foldr_cons] at hp
    split at hp
    next hb => exact ih p hp
    next hb =>
      rcases List.mem_cons.1 hp with hp | hp
      · rw [hp]; exact hb
      · exact ih p hp

/-- One operation on the subscription registry. -/
inductive RegOp where
  | sub (c : Conn) (d : Str) (i : Str)
  | unsub (c : Conn) (d : Str) (i : Str)
  | disc (c : Conn)
deriving DecidableEq

/-- Apply a registry operation. -/
def applyRegOp (r : Registry) : RegOp → Registry
  | .sub c d i => AsyncSubscriptionManager.subscribe c d i r
  | .unsub c d i => AsyncSubscriptionManager.unsubscribe c d i r
  | .disc c => AsyncSubscriptionManager.disconnect c r

/-- Apply a sequence of registry operations to the empty registry. -/
def applyRegOps (ops : List RegOp) : Registry :=
  ops.foldl applyRegOp []

theorem clean_applyRegOp {r : Registry} (op : RegOp)
    (hc : ∀ p ∈ r, p.2 ≠ []) : ∀ p ∈ applyRegOp r op, p.2 ≠ [] := by
  cases op with
  | sub c d i => exact clean_subscribe c d i hc
  | unsub c d i => exact clean_unsubscribe c d i hc
  | disc c => exact clean_disconnect c

theorem clean_foldl {r : Registry} (ops : List RegOp)
    (hc : ∀ p ∈ r, p.2 ≠ []) : ∀ p ∈ ops.foldl applyRegOp r, p.2 ≠ [] := by
  induction ops generalizing r with
  | nil => exact hc
  | cons op t ih => exact ih (clean_applyRegOp op hc)

/-- C9: after any sequence of subscribe, unsubscribe and disconnect
operations starting from the empty registry, every retained destination
bucket is non-empty (a destination key is present iff it holds at least one
subscription), and subscribe is idempotent on a duplicate (connection, id)
pair within a destination. -/
theorem c9_registry_clean_and_idempotent (ops : List RegOp) (r : Registry)
    (c : Conn) (d i : Str) :
    (∀ p ∈ applyRegOps ops, p.2 ≠ []) ∧
    AsyncSubscriptionManager.subscribe c d i (AsyncSubscriptionManager.subscribe c d i r) =
      AsyncSubscriptionManager.subscribe c d i r := by
  constructor
  · exact clean_foldl ops (by simp)
  · unfold AsyncSubscriptionManager.subscribe
    cases h : regGet d r with
    | some b =>
      by_cases hm : (⟨c, i⟩ : AsyncSubscription) ∈ b
      · simp [h, hm]
      · simp only [h, hm, if_neg, if_false]
        have h2 : regGet d (regSet d (b ++ [⟨c, i⟩]) r) = some (b ++ [⟨c, i⟩]) :=
          regGet_regSet_self h
        simp [h2]
    | none =>
      simp only [h]
      have h2 : regGet d (r ++ [(d, [⟨c, i⟩])]) = some [⟨c, i⟩] :=
        regGet_append_self h
      simp [h2]

/-- Witness for C9 at a concrete operation sequence and duplicate subscribe. -/
theorem c9_registry_clean_and_idempotent_witness :
    (∀ p ∈ applyRegOps
        [RegOp.sub 1 (chars "/topic/x") (chars "s1"),
         RegOp.sub 2 (chars "/topic/x") (chars "s2"),
         RegOp.unsub 1 (chars "/topic/x") (chars "s1"),
         RegOp.disc 2], p.2 ≠ []) ∧
    AsyncSubscriptionManager.subscribe 1 (chars "/topic/x") (chars "s1")
        (AsyncSubscriptionManager.subscribe 1 (chars "/topic/x") (chars "s1")
          [(chars "/topic/x", [⟨1, chars "s1"⟩])]) =
      AsyncSubscriptionManager.subscribe 1 (chars "/topic/x") (chars "s1")
        [(chars "/topic/x", [⟨1, chars "s1"⟩])] :=
  c9_registry_clean_and_idempotent
    [RegOp.sub 1 (chars "/topic/x") (chars "s1"),
     RegOp.sub 2 (chars "/topic/x") (chars "s2"),
     RegOp.unsub 1 (chars "/topic/x") (chars "s1"),
     RegOp.disc 2]
    [(chars "/topic/x", [⟨1, chars "s1"⟩])] 1 (chars "/topic/x") (chars "s1")

/-- Concrete broker state for exercising `unbind`: connection 1 holds one
queue subscription with a pending in-flight frame and one topic
subscription. -/
def c1Engine : Engine :=
  { conn := 1,
    connected := true,
    queue :=
      { registry := [(chars "/queue/a", [⟨1, chars "s1"⟩])],
        pending := [(⟨1, chars "s1"⟩,
          ⟨chars "message",
           [(chars "destination", .s (chars "/queue/a")),
            (chars "message-id", .s (chars "m1"))],
           chars "hello"⟩)],
        store := [] },
    topic := [(chars "/topic/x", [⟨1, chars "t1"⟩])] }

/-- C1: `AsyncStompEngine.unbind` resets the connected flag but the
`disconnect` coroutines of the queue and topic managers are created without
being awaited, so none of their cleanup runs: the pending frame of the
departing connection is neither requeued nor dropped and every registry
entry survives, although applying the managers' `disconnect` (what the
claim requires) would change both states. -/
theorem c1_unbind_skips_manager_cleanup :
    (AsyncStompEngine.unbind c1Engine).connected = false ∧
    (AsyncStompEngine.unbind c1Engine).queue = c1Engine.queue ∧
    (AsyncStompEngine.unbind c1Engine).topic = c1Engine.topic ∧
    (AsyncStompEngine.unbind c1Engine).queue.pending ≠ [] ∧
    AsyncQueueManager.disconnect 1 c1Engine.queue ≠ c1Engine.queue ∧
    AsyncSubscriptionManager.disconnect 1 c1Engine.topic ≠ c1Engine.topic ∧
    (AsyncQueueManager.disconnect 1 c1Engine.queue).pending = [] ∧
    (AsyncQueueManager.disconnect 1 c1Engine.queue).store ≠
      (AsyncStompEngine.unbind c1Engine).queue.store := by
  refine ⟨rfl, rfl, rfl, by decide, by decide, by decide, by decide, by decide⟩

/-- A concrete environment: the authenticator accepts exactly the token
`good`, no connection fails, and the scheduler picks the first eligible
subscriber. -/
def defaultEnv : Env :=
  { auth := fun t => t == chars "good",
    fails := fun _ => false,
    freshMsgId := chars "mid-1",
    freshSession := chars "sess-1",
    sched := fun xs _ => xs.head? }

/-- A fresh, not yet connected engine for connection 0. -/
def freshEngine : Engine :=
  { conn := 0, connected := false, queue := ⟨[], [], []⟩, topic := [] }

/-- C8 counterexample: `stomp` and `receipt` are missing from
`VALID_COMMANDS`, and processing a well-formed STOMP frame raises
`ProtocolError` instead of connecting, refuting the claimed 15-command
recognized set. -/
theorem c8_stomp_receipt_not_recognized :
    chars "stomp" ∉ VALID_COMMANDS ∧
    chars "receipt" ∉ VALID_COMMANDS ∧
    process_frame defaultEnv freshEngine
        ⟨chars "STOMP",
         [(chars "accept-version", .s (chars "1.2")), (chars "token", .s (chars "good"))],
         []⟩ =
      ⟨freshEngine, [], some (.protocol (chars "Invalid STOMP command: STOMP"))⟩ := by
  refine ⟨by decide, by decide, by decide⟩

/-- C8 amended: the set of commands the dispatcher recognizes is exactly the
13-element `VALID_COMMANDS` list — without `stomp` and without `receipt` —
and processing a frame whose lowercased command lies outside it raises a
`ProtocolError` that propagates to the caller, before any handler or
error-frame send. -/
theorem c8_unknown_command_raises (env : Env) (eng : Engine) (f : Frame)
    (h : lowerStr f.cmd ∉ VALID_COMMANDS) :
    process_frame env eng f =
      ⟨eng, [], some (.protocol (chars "Invalid STOMP command: " ++ f.cmd))⟩ ∧
    VALID_COMMANDS =
      [chars "message", chars "connect", chars "connected", chars "error",
       chars "send", chars "subscribe", chars "unsubscribe", chars "begin",
       chars "commit", chars "abort", chars "ack", chars "disconnect",
       chars "nack"] ∧
    chars "stomp" ∉ VALID_COMMANDS ∧
    chars "receipt" ∉ VALID_COMMANDS := by
  refine ⟨?_, rfl, by decide, by decide⟩
  unfold process_frame
  rw [if_pos h]

/-- Witness for C8 at a concrete unknown command. -/
theorem c8_unknown_command_raises_witness :
    lowerStr (chars "FOO") ∉ VALID_COMMANDS ∧
    (process_frame defaultEnv freshEngine ⟨chars "FOO", [], []⟩ =
        ⟨freshEngine, [], some (.protocol (chars "Invalid STOMP command: " ++ chars "FOO"))⟩ ∧
      VALID_COMMANDS =
        [chars "message", chars "connect", chars "connected", chars "error",
         chars "send", chars "subscribe", chars "unsubscribe", chars "begin",
         chars "commit", chars "abort", chars "ack", chars "disconnect",
         chars "nack"] ∧
      chars "stomp" ∉ VALID_COMMANDS ∧
      chars "receipt" ∉ VALID_COMMANDS) :=
  ⟨by decide, c8_unknown_command_raises defaultEnv freshEngine ⟨chars "FOO", [], []⟩ (by decide)⟩

/-- C7 failing input: a CONNECT frame whose `accept-version` is `1.1` (so
`1.2` is not in the list) with a valid token. `_check_protocol` sends the
version ERROR frame but does not abort, so `_connect` continues,
authenticates, sets the connected flag, and sends CONNECTED — the session
DOES transition to Connected, against the claim. -/
theorem c7_unsupported_version_still_connects :
    (process_frame defaultEnv freshEngine
        ⟨chars "CONNECT",
         [(chars "accept-version", .s (chars "1.1")), (chars "token", .s (chars "good"))],
         []⟩).eng.connected = true ∧
    (process_frame defaultEnv freshEngine
        ⟨chars "CONNECT",
         [(chars "accept-version", .s (chars "1.1")), (chars "token", .s (chars "good"))],
         []⟩).evs =
      [(0, mkVersionErrorFrame (chars "Supported protocol versions are 1.2")),
       (0, mkConnectedFrame (chars "sess-1"))] ∧
    (process_frame defaultEnv freshEngine
        ⟨chars "CONNECT",
         [(chars "accept-version", .s (chars "1.1")), (chars "token", .s (chars "good"))],
         []⟩).err = none := by
  refine ⟨by decide, by decide, by decide⟩

/-!
## Header-dict helper lemmas
-/

theorem dictGet_insert_self (k : Str) (v : HVal) (h : Headers) :
    dictGet k (dictInsert k v h) = some v := by
  induction h with
  | nil => simp [dictInsert, dictGet]
  | cons p t ih =>
    obtain ⟨k', v'⟩ := p
    by_cases hk : k' = k
    · simp [dictInsert, dictGet, hk]
    · simp [dictInsert, dictGet, hk, ih]

theorem dictGet_insert_ne (k' k : Str) (v : HVal) (h : Headers) (hne : k' ≠ k) :
    dictGet k (dictInsert k' v h) = dictGet k h := by
  induction h with
  | nil => simp [dictInsert, dictGet, hne]
  | cons p t ih =>
    obtain ⟨k0, v0⟩ := p
    by_cases hk : k0 = k'
    · subst hk
      simp [dictInsert, dictGet, hne]
    · by_cases hk2 : k0 = k
      · have hne2 : ¬ k = k' := fun hh => hne hh.symm
        simp [dictInsert, dictGet, hk, hk2, hne2]
      · simp [dictInsert, dictGet, hk, hk2, ih]

theorem dictGet_setdefault_eq (k : Str) (v : HVal) (h : Headers) :
    dictGet k (dictSetdefault k v h) = some ((dictGet k h).getD v) := by
  unfold dictSetdefault
  cases hg : dictGet k h with
  | some w => simp [hg]
  | none =>
    simp only [hg, Option.getD_none]
    induction h with
    | nil => simp [dictGet]
    | cons p t ih =>
      obtain ⟨k0, v0⟩ := p
      by_cases hk : k0 = k
      · simp [dictGet, hk] at hg
      · simp only [dictGet, if_neg hk] at hg
        simp only [List.cons_append, dictGet, if_neg hk]
        exact ih hg

theorem dictGet_setdefault_ne (k' k : Str) (v : HVal) (h : Headers) (hne : k' ≠ k) :
    dictGet k (dictSetdefault k' v h) = dictGet k h := by
  unfold dictSetdefault
  cases hg : dictGet k' h with
  | some w => rfl
  | none =>
    induction h with
    | nil => simp [dictGet, hne]
    | cons p t ih =>
      obtain ⟨k0, v0⟩ := p
      by_cases hk : k0 = k
      · simp [dictGet, hk]
      · simp only [List.cons_append, dictGet, if_neg hk]
        by_cases hk1 : k0 = k'
        · simp [dictGet, hk1] at hg
        · exact ih (by simpa [dictGet, hk1] using hg)

/-- C3: queue-manager send. With a truthy destination the frame's command
becomes `message` and a fresh `message-id` is assigned only when absent;
when every registered subscriber of the destination has a pending in-flight
frame (or there is none) the frame is enqueued to the store and nobody's
`send_frame` is invoked, the registry and pending map untouched; otherwise
exactly one scheduler-chosen pending-free subscriber receives exactly one
`send_frame` invocation carrying the frame with its `subscription` header
set to that subscription's id, all manager state unchanged. Without a
truthy destination a ValueError is raised and nothing changes. -/
theorem c3_queue_send_spec (env : Env) (st : QMState) (m : Frame)
    (hsched : ∀ xs f, xs ≠ [] → ∃ y ∈ xs, env.sched xs f = some y) :
    (getDest m = none →
      AsyncQueueManager.send env st m =
        ⟨st, [], m, some (.valueError (chars "Cannot send frame with no destination"))⟩) ∧
    (∀ d, getDest m = some d →
      (AsyncQueueManager.send env st m).frame.cmd = chars "message" ∧
      dictGet (chars "message-id") (AsyncQueueManager.send env st m).frame.headers =
        some ((dictGet (chars "message-id") m.headers).getD (.s env.freshMsgId)) ∧
      ((∀ s ∈ AsyncSubscriptionManager.subscribers d st.registry,
          s ∈ pendingKeys st.pending) →
        (AsyncQueueManager.send env st m).evs = [] ∧
        (AsyncQueueManager.send env st m).st.store =
          AsyncMemoryQueue.enqueue d (AsyncQueueManager.send env st m).frame st.store ∧
        (AsyncQueueManager.send env st m).st.registry = st.registry ∧
        (AsyncQueueManager.send env st m).st.pending = st.pending ∧
        (AsyncQueueManager.send env st m).err = none) ∧
      ((∃ s ∈ AsyncSubscriptionManager.subscribers d st.registry,
          s ∉ pendingKeys st.pending) →
        ∃ sel ∈ AsyncSubscriptionManager.subscribers d st.registry,
          sel ∉ pendingKeys st.pending ∧
          (AsyncQueueManager.send env st m).evs =
            [(sel.connection, (AsyncQueueManager.send env st m).frame)] ∧
          dictGet (chars "subscription") (AsyncQueueManager.send env st m).frame.headers =
            some (.s sel.id) ∧
          (AsyncQueueManager.send env st m).st = st)) := by
  constructor
  · intro h
    simp only [AsyncQueueManager.send, h]
  · intro d hd
    by_cases hE : (AsyncSubscriptionManager.subscribers d st.registry).filter
        (fun s => s ∉ pendingKeys st.pending) = []
    · have hsend : AsyncQueueManager.send env st m =
          AsyncQueueManager.SendRes.mk
            (QMState.mk st.registry st.pending
              (AsyncMemoryQueue.enqueue d
                (Frame.mk (chars "message")
                  (dictSetdefault (chars "message-id") (.s env.freshMsgId) m.headers)
                  m.body)
                st.store))
            []
            (Frame.mk (chars "message")
              (dictSetdefault (chars "message-id") (.s env.freshMsgId) m.headers)
              m.body)
            none := by
        simp only [AsyncQueueManager.send, hd, hE, if_pos]
      refine ⟨by rw [hsend], by rw [hsend]; exact dictGet_setdefault_eq _ _ _, ?_, ?_⟩
      · intro _
        rw [hsend]
        exact ⟨rfl, rfl, rfl, rfl, rfl⟩
      · intro hex
        exfalso
        obtain ⟨s, hs, hnp⟩ := hex
        have hmem : s ∈ (AsyncSubscriptionManager.subscribers d st.registry).filter
            (fun x => x ∉ pendingKeys st.pending) := by
          rw [List.mem_filter]
          exact ⟨hs, by simpa using hnp⟩
        rw [hE] at hmem
        cases hmem
    · obtain ⟨sel, hselmem, hsel⟩ := hsched
        ((AsyncSubscriptionManager.subscribers d st.registry).filter
          (fun s => s ∉ pendingKeys st.pending))
        (Frame.mk (chars "message")
          (dictSetdefault (chars "message-id") (.s env.freshMsgId) m.headers)
          m.body) hE
      have hsend : AsyncQueueManager.send env st m =
          AsyncQueueManager.SendRes.mk st
            [(sel.connection,
              Frame.mk (chars "message")
                (dictInsert (chars "subscription") (.s sel.id)
                  (dictSetdefault (chars "message-id") (.s env.freshMsgId) m.headers))
                m.body)]
            (Frame.mk (chars "message")
              (dictInsert (chars "subscription") (.s sel.id)
                (dictSetdefault (chars "message-id") (.s env.freshMsgId) m.headers))
              m.body)
            (if env.fails sel.connection then some (.sendFailed (chars "send_frame failed"))
             else none) := by
        simp only [AsyncQueueManager.send, hd]
        rw [if_neg hE, hsel]
        rfl
      have hmemf := List.mem_filter.1 hselmem
      refine ⟨?_, ?_, ?_, ?_⟩
      · rw [hsend]
      · rw [hsend]
        have h1 : dictGet (chars "message-id")
            (dictInsert (chars "subscription") (.s sel.id)
              (dictSetdefault (chars "message-id") (.s env.freshMsgId) m.headers)) =
            dictGet (chars "message-id")
              (dictSetdefault (chars "message-id") (.s env.freshMsgId) m.headers) :=
          dictGet_insert_ne _ _ _ _ (by decide)
        rw [h1]
        exact dictGet_setdefault_eq _ _ _
      · intro hall
        exfalso
        obtain ⟨s, hs⟩ := List.exists_mem_of_ne_nil _ hE
        have hsf := List.mem_filter.1 hs
        have hne := hsf.2
        simp only [decide_eq_true_eq] at hne
        exact hne (hall s hsf.1)
      · intro _
        refine ⟨sel, hmemf.1, ?_, ?_, ?_, ?_⟩
        · simpa using hmemf.2
        · rw [hsend]
        · rw [hsend]
          exact dictGet_insert_self _ _ _
        · rw [hsend]

/-- Concrete queue-manager state for the C3 witness: one subscriber of
`/queue/a` with no pending frame. -/
def c3State : QMState :=
  { registry := [(chars "/queue/a", [⟨1, chars "s1"⟩])], pending := [], store := [] }

/-- Concrete SEND frame for the C3 witness. -/
def c3Frame : Frame :=
  ⟨chars "SEND", [(chars "destination", .s (chars "/queue/a"))], chars "hello"⟩

/-- Witness for C3 at a concrete manager state and frame. -/
theorem c3_queue_send_spec_witness :
    (∀ xs f, xs ≠ [] → ∃ y ∈ xs, defaultEnv.sched xs f = some y) ∧
    ((getDest c3Frame = none →
      AsyncQueueManager.send defaultEnv c3State c3Frame =
        ⟨c3State, [], c3Frame, some (.valueError (chars "Cannot send frame with no destination"))⟩) ∧
    (∀ d, getDest c3Frame = some d →
      (AsyncQueueManager.send defaultEnv c3State c3Frame).frame.cmd = chars "message" ∧
      dictGet (chars "message-id") (AsyncQueueManager.send defaultEnv c3State c3Frame).frame.headers =
        some ((dictGet (chars "message-id") c3Frame.headers).getD (.s defaultEnv.freshMsgId)) ∧
      ((∀ s ∈ AsyncSubscriptionManager.subscribers d c3State.registry,
          s ∈ pendingKeys c3State.pending) →
        (AsyncQueueManager.send defaultEnv c3State c3Frame).evs = [] ∧
        (AsyncQueueManager.send defaultEnv c3State c3Frame).st.store =
          AsyncMemoryQueue.enqueue d (AsyncQueueManager.send defaultEnv c3State c3Frame).frame
            c3State.store ∧
        (AsyncQueueManager.send defaultEnv c3State c3Frame).st.registry = c3State.registry ∧
        (AsyncQueueManager.send defaultEnv c3State c3Frame).st.pending = c3State.pending ∧
        (AsyncQueueManager.send defaultEnv c3State c3Frame).err = none) ∧
      ((∃ s ∈ AsyncSubscriptionManager.subscribers d c3State.registry,
          s ∉ pendingKeys c3State.pending) →
        ∃ sel ∈ AsyncSubscriptionManager.subscribers d c3State.registry,
          sel ∉ pendingKeys c3State.pending ∧
          (AsyncQueueManager.send defaultEnv c3State c3Frame).evs =
            [(sel.connection, (AsyncQueueManager.send defaultEnv c3State c3Frame).frame)] ∧
          dictGet (chars "subscription")
              (AsyncQueueManager.send defaultEnv c3State c3Frame).frame.headers =
            some (.s sel.id) ∧
          (AsyncQueueManager.send defaultEnv c3State c3Frame).st = c3State))) :=
  ⟨fun xs f h => by
      cases xs with
      | nil => exact absurd rfl h
      | cons a t => exact ⟨a, List.mem_cons_self a t, rfl⟩,
    c3_queue_send_spec defaultEnv c3State c3Frame
      (fun xs f h => by
        cases xs with
        | nil => exact absurd rfl h
        | cons a t => exact ⟨a, List.mem_cons_self a t, rfl⟩)⟩

/-!
## Topic fan-out helper lemmas
-/

theorem fanout_events (env : Env) (m : Frame) (subs : List AsyncSubscription) :
    (AsyncTopicManager.fanout env m subs).1 =
      subs.map (fun s => (s.connection,
        Frame.mk m.cmd (dictInsert (chars "subscription") (.s s.id) m.headers) m.body)) := by
  induction subs with
  | nil => rfl
  | cons s t ih => simp [AsyncTopicManager.fanout, ih]

theorem fanout_bads (env : Env) (m : Frame) (subs : List AsyncSubscription) :
    (AsyncTopicManager.fanout env m subs).2 =
      subs.filter (fun s => env.fails s.connection) := by
  induction subs with
  | nil => rfl
  | cons s t ih =>
    by_cases hf : env.fails s.connection
    · simp [AsyncTopicManager.fanout, hf, ih]
    · simp [AsyncTopicManager.fanout, hf, ih]

theorem regGet_none_of_not_mem {reg : Registry} {d : Str}
    (h : d ∉ reg.map Prod.fst) : regGet d reg = none := by
  induction reg with
  | nil => rfl
  | cons p t ih =>
    simp only [List.map_cons, List.mem_cons, not_or] at h
    have h1 : ¬ p.1 = d := fun hh => h.1 hh.symm
    obtain ⟨k, b⟩ := p
    simp only [regGet, if_neg h1]
    exact ih h.2

theorem regGet_some_mem {reg : Registry} {d : Str} {b : List AsyncSubscription}
    (h : regGet d reg = some b) : d ∈ reg.map Prod.fst := by
  induction reg with
  | nil => simp [regGet] at h
  | cons p t ih =>
    obtain ⟨k, q⟩ := p
    by_cases hk : k = d
    · simp [hk]
    · simp only [regGet, if_neg hk] at h
      simp [ih h]

theorem keys_regSet (reg : Registry) (d : Str) (b : List AsyncSubscription) :
    (regSet d b reg).map Prod.fst = reg.map Prod.fst := by
  induction reg with
  | nil => rfl
  | cons p t ih =>
    obtain ⟨k, q⟩ := p
    by_cases hk : k = d
    · simp [regSet, hk]
    · simp [regSet, hk, ih]

theorem keys_regDel_sublist (reg : Registry) (d : Str) :
    ((regDel d reg).map Prod.fst).Sublist (reg.map Prod.fst) := by
  induction reg with
  | nil => simp [regDel]
  | cons p t ih =>
    obtain ⟨k, q⟩ := p
    by_cases hk : k = d
    · simp only [regDel, if_pos hk, List.map_cons]
      exact List.sublist_cons_self _ _
    · simp only [regDel, if_neg hk, List.map_cons]
      exact ih.cons₂ k

theorem regGet_regDel_none {reg : Registry} {d : Str}
    (hnd : (reg.map Prod.fst).Nodup) : regGet d (regDel d reg) = none := by
  induction reg with
  | nil => rfl
  | cons p t ih =>
    obtain ⟨k, q⟩ := p
    simp only [List.map_cons, List.nodup_cons] at hnd
    by_cases hk : k = d
    · simp only [regDel, if_pos hk]
      subst hk
      exact regGet_none_of_not_mem hnd.1
    · simp only [regDel, if_neg hk, regGet, if_neg hk]
      exact ih hnd.2

theorem subscribers_unsubscribe (c : Conn) (d i : Str) {reg : Registry}
    (hnd : (reg.map Prod.fst).Nodup) :
    AsyncSubscriptionManager.subscribers d (AsyncSubscriptionManager.unsubscribe c d i reg) =
      (AsyncSubscriptionManager.subscribers d reg).filter
        (fun x => x ≠ (⟨c, i⟩ : AsyncSubscription)) := by
  cases h : regGet d reg with
  | none => simp [AsyncSubscriptionManager.subscribers, AsyncSubscriptionManager.unsubscribe, h]
  | some b =>
    simp only [AsyncSubscriptionManager.unsubscribe, h]
    by_cases hb : b.filter (fun x => x ≠ (⟨c, i⟩ : AsyncSubscription)) = []
    · rw [if_pos hb]
      simp only [AsyncSubscriptionManager.subscribers, h,
        regGet_regDel_none hnd, hb]
    · rw [if_neg hb]
      simp only [AsyncSubscriptionManager.subscribers, h, regGet_regSet_self h]

theorem keys_unsubscribe_sublist (c : Conn) (d i : Str) (reg : Registry) :
    ((AsyncSubscriptionManager.unsubscribe c d i reg).map Prod.fst).Sublist
      (reg.map Prod.fst) := by
  cases h : regGet d reg with
  | none =>
    simp only [AsyncSubscriptionManager.unsubscribe, h]
    exact List.Sublist.refl _
  | some b =>
    simp only [AsyncSubscriptionManager.unsubscribe, h]
    by_cases hb : b.filter (fun x => x ≠ (⟨c, i⟩ : AsyncSubscription)) = []
    · rw [if_pos hb]
      exact keys_regDel_sublist reg d
    · rw [if_neg hb]
      rw [keys_regSet]

theorem subscribers_foldUnsub (d : Str) (bads : List AsyncSubscription) :
    ∀ (reg : Registry), (reg.map Prod.fst).Nodup →
    AsyncSubscriptionManager.subscribers d
      (bads.foldl (fun acc s => AsyncSubscriptionManager.unsubscribe s.connection d s.id acc) reg) =
    bads.foldl (fun acc s => acc.filter (fun x => x ≠ s))
      (AsyncSubscriptionManager.subscribers d reg) := by
  induction bads with
  | nil => intro reg _; rfl
  | cons s t ih =>
    intro reg hnd
    simp only [List.foldl_cons]
    have heta : (⟨s.connection, s.id⟩ : AsyncSubscription) = s := rfl
    have hnd' : ((AsyncSubscriptionManager.unsubscribe s.connection d s.id reg).map
        Prod.fst).Nodup :=
      (keys_unsubscribe_sublist s.connection d s.id reg).nodup hnd
    rw [ih _ hnd', subscribers_unsubscribe s.connection d s.id hnd, heta]

theorem foldl_filter_eq_filter_not_mem (bads : List AsyncSubscription) :
    ∀ b : List AsyncSubscription,
    bads.foldl (fun acc s => acc.filter (fun x => x ≠ s)) b =
      b.filter (fun x => x ∉ bads) := by
  induction bads with
  | nil => intro b; simp
  | cons s t ih =>
    intro b
    simp only [List.foldl_cons]
    rw [ih]
    rw [List.filter_filter]
    apply List.filter_congr
    intro x _
    by_cases h1 : x = s
    · simp [h1]
    · by_cases h2 : x ∈ t <;> simp [h1, h2]

/-- C4: topic send with a destination present. It completes without raising;
it performs exactly one `send_frame` invocation per current subscriber, in
order, each carrying an independent copy of the normalized frame whose
`subscription` header is that subscriber's id; and by the time it returns,
every subscriber whose connection fails has been unsubscribed from the
destination while every non-failing subscriber is retained (and received
its copy). -/
theorem c4_topic_send_spec (env : Env) (reg : Registry) (m : Frame) (d : Str)
    (hd : getDest m = some d) (hnd : (reg.map Prod.fst).Nodup) :
    (AsyncTopicManager.send env reg m).2.2.2 = none ∧
    (AsyncTopicManager.send env reg m).2.1 =
      (AsyncSubscriptionManager.subscribers d reg).map
        (fun s => (s.connection,
          Frame.mk (chars "message")
            (dictInsert (chars "subscription") (.s s.id)
              (dictSetdefault (chars "message-id") (.s env.freshMsgId) m.headers))
            m.body)) ∧
    AsyncSubscriptionManager.subscribers d (AsyncTopicManager.send env reg m).1 =
      (AsyncSubscriptionManager.subscribers d reg).filter
        (fun s => ! env.fails s.connection) := by
  have hsend : AsyncTopicManager.send env reg m =
      ((((AsyncTopicManager.fanout env
            (Frame.mk (chars "message")
              (dictSetdefault (chars "message-id") (.s env.freshMsgId) m.headers)
              m.body)
            (AsyncSubscriptionManager.subscribers d reg)).2).foldl
          (fun acc s => AsyncSubscriptionManager.unsubscribe s.connection d s.id acc) reg),
        ((AsyncTopicManager.fanout env
            (Frame.mk (chars "message")
              (dictSetdefault (chars "message-id") (.s env.freshMsgId) m.headers)
              m.body)
            (AsyncSubscriptionManager.subscribers d reg)).1),
        (Frame.mk (chars "message")
          (dictSetdefault (chars "message-id") (.s env.freshMsgId) m.headers)
          m.body),
        none) := by
    simp only [AsyncTopicManager.send, hd]
  refine ⟨by rw [hsend], ?_, ?_⟩
  · rw [hsend]
    simp only [fanout_events]
  · rw [hsend]
    simp only [fanout_bads]
    rw [subscribers_foldUnsub d _ reg hnd, foldl_filter_eq_filter_not_mem]
    apply List.filter_congr
    intro x hx
    by_cases hf : env.fails x.connection
    · simp [hf, List.mem_filter, hx]
    · simp [hf, List.mem_filter]

/-- Environment for the C4 witness: connection 2 raises from `send_frame`. -/
def c4Env : Env :=
  { auth := fun t => t == chars "good",
    fails := fun c => c == 2,
    freshMsgId := chars "mid-4",
    freshSession := chars "sess-4",
    sched := fun xs _ => xs.head? }

/-- Registry for the C4 witness: subscribers 1 and 2 on `/topic/x`. -/
def c4Reg : Registry :=
  [(chars "/topic/x", [⟨1, chars "sa"⟩, ⟨2, chars "sb"⟩])]

/-- Frame for the C4 witness. -/
def c4Frame : Frame :=
  ⟨chars "SEND", [(chars "destination", .s (chars "/topic/x"))], chars "hi"⟩

/-- Witness for C4 at a concrete registry with one failing subscriber. -/
theorem c4_topic_send_spec_witness :
    getDest c4Frame = some (chars "/topic/x") ∧
    (c4Reg.map Prod.fst).Nodup ∧
    ((AsyncTopicManager.send c4Env c4Reg c4Frame).2.2.2 = none ∧
      (AsyncTopicManager.send c4Env c4Reg c4Frame).2.1 =
        (AsyncSubscriptionManager.subscribers (chars "/topic/x") c4Reg).map
          (fun s => (s.connection,
            Frame.mk (chars "message")
              (dictInsert (chars "subscription") (.s s.id)
                (dictSetdefault (chars "message-id") (.s c4Env.freshMsgId) c4Frame.headers))
              c4Frame.body)) ∧
      AsyncSubscriptionManager.subscribers (chars "/topic/x")
          (AsyncTopicManager.send c4Env c4Reg c4Frame).1 =
        (AsyncSubscriptionManager.subscribers (chars "/topic/x") c4Reg).filter
          (fun s => ! c4Env.fails s.connection)) :=
  ⟨by decide, by decide,
    c4_topic_send_spec c4Env c4Reg c4Frame (chars "/topic/x") (by decide) (by decide)⟩

/-!
## Receipt-law helper lemmas
-/

theorem receiptCount_append (a b : List Event) :
    receiptCount (a ++ b) = receiptCount a + receiptCount b := by
  simp [receiptCount, List.filter_append]

theorem pConnect_frame (env : Env) (eng : Engine) (f : Frame) :
    (pConnect env eng f).frame = f := by
  unfold pConnect
  dsimp only
  repeat' split
  all_goals rfl

theorem pSubscribe_frame (eng : Engine) (f : Frame) :
    (pSubscribe eng f).frame = f := by
  unfold pSubscribe
  repeat' split
  all_goals rfl

theorem pUnsubscribe_frame (eng : Engine) (f : Frame) :
    (pUnsubscribe eng f).frame = f := by
  unfold pUnsubscribe
  repeat' split
  all_goals rfl

theorem qmSend_frame_receipt (env : Env) (st : QMState) (m : Frame) :
    dictGet (chars "receipt") (AsyncQueueManager.send env st m).frame.headers =
      dictGet (chars "receipt") m.headers := by
  unfold AsyncQueueManager.send AsyncQueueManager.sendFrameToSub
  dsimp only
  repeat' split
  all_goals
    first
      | rfl
      | exact dictGet_setdefault_ne _ _ _ _ (by decide)
      | (rw [dictGet_insert_ne _ _ _ _ (by decide)]
         exact dictGet_setdefault_ne _ _ _ _ (by decide))

theorem topicSend_frame_receipt (env : Env) (reg : Registry) (m : Frame) :
    dictGet (chars "receipt") (AsyncTopicManager.send env reg m).2.2.1.headers =
      dictGet (chars "receipt") m.headers := by
  unfold AsyncTopicManager.send
  dsimp only
  repeat' split
  all_goals
    first
      | rfl
      | exact dictGet_setdefault_ne _ _ _ _ (by decide)

theorem handler_preserves_receipt (env : Env) (eng : Engine) (f : Frame) (h : HKind) :
    dictGet (chars "receipt") (runHandler env eng f h).frame.headers =
      dictGet (chars "receipt") f.headers := by
  cases h with
  | hConnect => rw [runHandler, pConnect_frame]
  | hSubscribe => rw [runHandler, pSubscribe_frame]
  | hUnsubscribe => rw [runHandler, pUnsubscribe_frame]
  | hDisconnect => rfl
  | hSend =>
    rw [runHandler]
    unfold pSend
    split
    · rfl
    · split
      · exact qmSend_frame_receipt env eng.queue f
      · exact topicSend_frame_receipt env eng.topic f

theorem receiptCount_single (c : Conn) (fr : Frame) (h : ¬ fr.cmd = chars "RECEIPT") :
    receiptCount [(c, fr)] = 0 := by
  simp [receiptCount, List.filter_cons, h]

theorem receiptCount_zero_of (evs : List Event)
    (h : ∀ ev ∈ evs, ¬ ev.2.cmd = chars "RECEIPT") : receiptCount evs = 0 := by
  simp only [receiptCount, List.length_eq_zero]
  rw [List.filter_eq_nil]
  intro ev hev
  simpa using h ev hev

theorem receiptCount_verr (c : Conn) (b : Str) :
    receiptCount [(c, mkVersionErrorFrame b)] = 0 :=
  receiptCount_single c (mkVersionErrorFrame b)
    (show ¬ chars "ERROR" = chars "RECEIPT" by decide)

theorem receiptCount_connected (c : Conn) (s : Str) :
    receiptCount [(c, mkConnectedFrame s)] = 0 :=
  receiptCount_single c (mkConnectedFrame s)
    (show ¬ chars "CONNECTED" = chars "RECEIPT" by decide)

theorem pConnect_no_receipt (env : Env) (eng : Engine) (f : Frame) :
    receiptCount (pConnect env eng f).evs = 0 := by
  unfold pConnect
  dsimp only
  repeat' split
  all_goals
    simp [receiptCount, receiptCount_append, receiptCount_verr, receiptCount_connected]
  all_goals
    simp only [mkVersionErrorFrame, mkConnectedFrame]
  all_goals decide

theorem qmSend_no_receipt (env : Env) (st : QMState) (m : Frame) :
    receiptCount (AsyncQueueManager.send env st m).evs = 0 := by
  unfold AsyncQueueManager.send AsyncQueueManager.sendFrameToSub
  dsimp only
  repeat' split
  all_goals
    first
      | rfl
      | exact receiptCount_single _ _ (show ¬ chars "message" = chars "RECEIPT" by decide)

theorem topicSend_no_receipt (env : Env) (reg : Registry) (m : Frame) :
    receiptCount (AsyncTopicManager.send env reg m).2.1 = 0 := by
  unfold AsyncTopicManager.send
  dsimp only
  split
  · rfl
  · rw [fanout_events]
    apply receiptCount_zero_of
    intro ev hev
    rw [List.mem_map] at hev
    obtain ⟨s, _, hs⟩ := hev
    rw [← hs]
    exact (show ¬ chars "message" = chars "RECEIPT" by decide)

theorem handler_no_receipt (env : Env) (eng : Engine) (f : Frame) (h : HKind) :
    receiptCount (runHandler env eng f h).evs = 0 := by
  cases h with
  | hConnect => exact pConnect_no_receipt env eng f
  | hSubscribe =>
    rw [runHandler]
    unfold pSubscribe
    repeat' split
    all_goals rfl
  | hUnsubscribe =>
    rw [runHandler]
    unfold pUnsubscribe
    repeat' split
    all_goals rfl
  | hDisconnect => rfl
  | hSend =>
    rw [runHandler]
    unfold pSend
    split
    · rfl
    · split
      · exact qmSend_no_receipt env eng.queue f
      · exact topicSend_no_receipt env eng.topic f

theorem process_frame_dispatch (env : Env) (eng : Engine) (f : Frame) (h : HKind)
    (hmem : lowerStr f.cmd ∈ VALID_COMMANDS)
    (hh : handlerFor (lowerStr f.cmd) = some h)
    (hconn : eng.connected = true) :
    process_frame env eng f =
      (match (runHandler env eng f h).err with
       | some e =>
         ⟨(runHandler env eng f h).eng,
          (runHandler env eng f h).evs ++ [(eng.conn, mkErrorFrame e.msg e.msg)], none⟩
       | none =>
         match dictGet (chars "receipt") (runHandler env eng f h).frame.headers with
         | some v =>
           if v.truthy ∧ h ≠ .hConnect then
             ⟨(runHandler env eng f h).eng,
              (runHandler env eng f h).evs ++ [(eng.conn, mkReceiptFrame v)],
              if env.fails eng.conn then some (.sendFailed (chars "send_frame failed"))
              else none⟩
           else ⟨(runHandler env eng f h).eng, (runHandler env eng f h).evs, none⟩
         | none => ⟨(runHandler env eng f h).eng, (runHandler env eng f h).evs, none⟩) := by
  unfold process_frame
  rw [if_neg (not_not_intro hmem), hh]
  rw [if_neg (by simp [hconn])]

/-- C6 amended: for a dispatched non-CONNECT command (send, subscribe,
unsubscribe, disconnect on a connected session) carrying a receipt header
with a NON-EMPTY value X: when the handler completes without raising,
`process_frame` sends exactly the handler frames followed by exactly one
RECEIPT frame echoing X, and no RECEIPT is among the handler frames; when
the handler raises, no RECEIPT at all is sent and a single ERROR frame
carrying the exception message (header and body) follows the handler
frames instead. -/
theorem c6_receipt_law (env : Env) (eng : Engine) (f : Frame) (x : Str)
    (hc : lowerStr f.cmd ∈
      [chars "send", chars "subscribe", chars "unsubscribe", chars "disconnect"])
    (hconn : eng.connected = true)
    (hr : dictGet (chars "receipt") f.headers = some (.s x))
    (hx : x ≠ []) :
    ((handlerRun env eng f).err = none →
      (process_frame env eng f).evs =
        (handlerRun env eng f).evs ++ [(eng.conn, mkReceiptFrame (.s x))] ∧
      receiptCount (handlerRun env eng f).evs = 0 ∧
      receiptCount (process_frame env eng f).evs = 1) ∧
    (∀ e, (handlerRun env eng f).err = some e →
      (process_frame env eng f).evs =
        (handlerRun env eng f).evs ++ [(eng.conn, mkErrorFrame e.msg e.msg)] ∧
      receiptCount (process_frame env eng f).evs = 0) := by
  have hcases : handlerFor (lowerStr f.cmd) = some .hSend ∧ lowerStr f.cmd ∈ VALID_COMMANDS ∨
      handlerFor (lowerStr f.cmd) = some .hSubscribe ∧ lowerStr f.cmd ∈ VALID_COMMANDS ∨
      handlerFor (lowerStr f.cmd) = some .hUnsubscribe ∧ lowerStr f.cmd ∈ VALID_COMMANDS ∨
      handlerFor (lowerStr f.cmd) = some .hDisconnect ∧ lowerStr f.cmd ∈ VALID_COMMANDS := by
    simp only [List.mem_cons, List.not_mem_nil, or_false] at hc
    rcases hc with hc | hc | hc | hc
    · exact Or.inl ⟨by rw [hc]; decide, by rw [hc]; decide⟩
    · exact Or.inr (Or.inl ⟨by rw [hc]; decide, by rw [hc]; decide⟩)
    · exact Or.inr (Or.inr (Or.inl ⟨by rw [hc]; decide, by rw [hc]; decide⟩))
    · exact Or.inr (Or.inr (Or.inr ⟨by rw [hc]; decide, by rw [hc]; decide⟩))
  have main : ∀ h : HKind, handlerFor (lowerStr f.cmd) = some h →
      lowerStr f.cmd ∈ VALID_COMMANDS → h ≠ .hConnect →
      ((handlerRun env eng f).err = none →
        (process_frame env eng f).evs =
          (handlerRun env eng f).evs ++ [(eng.conn, mkReceiptFrame (.s x))] ∧
        receiptCount (handlerRun env eng f).evs = 0 ∧
        receiptCount (process_frame env eng f).evs = 1) ∧
      (∀ e, (handlerRun env eng f).err = some e →
        (process_frame env eng f).evs =
          (handlerRun env eng f).evs ++ [(eng.conn, mkErrorFrame e.msg e.msg)] ∧
        receiptCount (process_frame env eng f).evs = 0) := by
    intro h hh hmem hnc
    have hd := process_frame_dispatch env eng f h hmem hh hconn
    have hrun : handlerRun env eng f = runHandler env eng f h := by
      unfold handlerRun
      rw [hh]
    have hrec : dictGet (chars "receipt") (runHandler env eng f h).frame.headers =
        some (.s x) := by
      rw [handler_preserves_receipt, hr]
    constructor
    · intro herr
      rw [hrun] at herr
      rw [hd]
      split
      next e heq => rw [herr] at heq; cases heq
      next heq =>
        split
        next v hv =>
          rw [hrec] at hv
          injection hv with hv
          subst hv
          rw [if_pos ⟨by simp [HVal.truthy, hx], hnc⟩]
          refine ⟨by rw [hrun], by rw [hrun]; exact handler_no_receipt env eng f h, ?_⟩
          show receiptCount ((runHandler env eng f h).evs ++ [(eng.conn, mkReceiptFrame (.s x))]) = 1
          rw [receiptCount_append, handler_no_receipt env eng f h]
          rfl
        next hv => rw [hrec] at hv; cases hv
    · intro e herr
      rw [hrun] at herr
      rw [hd]
      split
      next e2 heq =>
        rw [herr] at heq
        injection heq with heq
        subst heq
        refine ⟨by rw [hrun], ?_⟩
        show receiptCount ((runHandler env eng f h).evs ++ [(eng.conn, mkErrorFrame e.msg e.msg)]) = 0
        rw [receiptCount_append, handler_no_receipt env eng f h,
          receiptCount_single eng.conn (mkErrorFrame e.msg e.msg)
            (show ¬ chars "error" = chars "RECEIPT" by decide)]
      next heq => rw [herr] at heq; cases heq
  rcases hcases with ⟨h1, h2⟩ | ⟨h1, h2⟩ | ⟨h1, h2⟩ | ⟨h1, h2⟩
  · exact main .hSend h1 h2 (by decide)
  · exact main .hSubscribe h1 h2 (by decide)
  · exact main .hUnsubscribe h1 h2 (by decide)
  · exact main .hDisconnect h1 h2 (by decide)

/-- A connected engine with empty broker state, used for the receipt-law
instances. -/
def c6Engine : Engine :=
  { conn := 0, connected := true, queue := ⟨[], [], []⟩, topic := [] }

/-- C6 counterexample: a SUBSCRIBE frame that carries a receipt header whose
value is the empty string. The handler completes without raising, yet zero
RECEIPT frames are sent, because `process_frame` tests the header value for
truthiness and the empty string is falsy — against the claim, which
promises exactly one RECEIPT with receipt-id X for every carried receipt
header X. -/
theorem c6_empty_receipt_counterexample :
    dictGet (chars "receipt")
        (Frame.mk (chars "SUBSCRIBE")
          [(chars "id", .s (chars "s1")),
           (chars "destination", .s (chars "/queue/q")),
           (chars "receipt", .s [])] []).headers = some (.s []) ∧
    lowerStr (chars "SUBSCRIBE") ≠ chars "connect" ∧
    (handlerRun defaultEnv c6Engine
        (Frame.mk (chars "SUBSCRIBE")
          [(chars "id", .s (chars "s1")),
           (chars "destination", .s (chars "/queue/q")),
           (chars "receipt", .s [])] [])).err = none ∧
    receiptCount (process_frame defaultEnv c6Engine
        (Frame.mk (chars "SUBSCRIBE")
          [(chars "id", .s (chars "s1")),
           (chars "destination", .s (chars "/queue/q")),
           (chars "receipt", .s [])] [])).evs = 0 := by
  refine ⟨by decide, by decide, by decide, by decide⟩

/-- Frame for the C6 witness: SUBSCRIBE with a non-empty receipt header. -/
def c6Frame : Frame :=
  ⟨chars "SUBSCRIBE",
   [(chars "id", .s (chars "s1")),
    (chars "destination", .s (chars "/queue/q")),
    (chars "receipt", .s (chars "r42"))], []⟩

/-- Witness for C6 at a concrete connected engine and SUBSCRIBE frame. -/
theorem c6_receipt_law_witness :
    lowerStr c6Frame.cmd ∈
      [chars "send", chars "subscribe", chars "unsubscribe", chars "disconnect"] ∧
    (((handlerRun defaultEnv c6Engine c6Frame).err = none →
      (process_frame defaultEnv c6Engine c6Frame).evs =
        (handlerRun defaultEnv c6Engine c6Frame).evs ++
          [(c6Engine.conn, mkReceiptFrame (.s (chars "r42")))] ∧
      receiptCount (handlerRun defaultEnv c6Engine c6Frame).evs = 0 ∧
      receiptCount (process_frame defaultEnv c6Engine c6Frame).evs = 1) ∧
    (∀ e, (handlerRun defaultEnv c6Engine c6Frame).err = some e →
      (process_frame defaultEnv c6Engine c6Frame).evs =
        (handlerRun defaultEnv c6Engine c6Frame).evs ++
          [(c6Engine.conn, mkErrorFrame e.msg e.msg)] ∧
      receiptCount (process_frame defaultEnv c6Engine c6Frame).evs = 0)) :=
  ⟨by decide,
    c6_receipt_law defaultEnv c6Engine c6Frame (chars "r42")
      (by decide) (by decide) (by decide) (by decide)⟩

/-!
## Codec round-trip: strip foundations
-/

/-- A string is already stripped. -/
def IsStripped (l : Str) : Prop := strip l = l

theorem dropWhile_idem (p : Char → Bool) (l : Str) :
    (l.dropWhile p).dropWhile p = l.dropWhile p := by
  induction l with
  | nil => rfl
  | cons c t ih =>
    by_cases hc : p c
    · simp [List.dropWhile_cons, hc, ih]
    · simp [List.dropWhile_cons, hc]

theorem dropRightWhile_idem (p : Char → Bool) (l : Str) :
    dropRightWhile p (dropRightWhile p l) = dropRightWhile p l := by
  unfold dropRightWhile
  rw [List.reverse_reverse, dropWhile_idem]

theorem dropRightWhile_front (p : Char → Bool) (l : Str) :
    dropRightWhile p l <+: l := by
  unfold dropRightWhile
  have h2 : (l.reverse.dropWhile p).reverse <+: l.reverse.reverse :=
    List.reverse_prefix.2 (List.dropWhile_suffix p)
  simpa using h2

theorem dropWhile_self_of_prefix {p : Char → Bool} {l₁ l₂ : Str}
    (hp : l₁ <+: l₂) (h : l₂.dropWhile p = l₂) : l₁.dropWhile p = l₁ := by
  cases l₁ with
  | nil => rfl
  | cons c t =>
    obtain ⟨s, hs⟩ := hp
    by_cases hc : p c
    · exfalso
      rw [← hs, List.cons_append, List.dropWhile_cons, if_pos hc] at h
      have hlen := congrArg List.length h
      have hle : ((t ++ s).dropWhile p).length ≤ (t ++ s).length :=
        (List.dropWhile_sublist p).length_le
      simp only [List.length_cons] at hlen
      omega
    · rw [List.dropWhile_cons, if_neg hc]

theorem dropWhile_strip (l : Str) : (strip l).dropWhile isWs = strip l := by
  unfold strip
  exact dropWhile_self_of_prefix (dropRightWhile_front isWs (l.dropWhile isWs))
    (dropWhile_idem isWs l)

theorem dropRightWhile_strip (l : Str) :
    dropRightWhile isWs (strip l) = strip l := by
  unfold strip
  exact dropRightWhile_idem isWs _

theorem strip_idem (l : Str) : strip (strip l) = strip l := by
  conv_lhs => rw [strip, dropWhile_strip, dropRightWhile_strip]

theorem strip_noLead {l : Str} (h : IsStripped l) : l.dropWhile isWs = l := by
  rw [← h]
  exact dropWhile_strip l

theorem stripped_strip (l : Str) : IsStripped (strip l) := strip_idem l

theorem strip_mem_subset {c : Char} {l : Str} (h : c ∈ strip l) : c ∈ l := by
  unfold strip dropRightWhile at h
  have h1 : c ∈ List.dropWhile isWs (List.dropWhile isWs l).reverse := List.mem_reverse.1 h
  have h2 : c ∈ (List.dropWhile isWs l).reverse :=
    List.Sublist.mem h1 (List.dropWhile_sublist _)
  have h3 : c ∈ List.dropWhile isWs l := List.mem_reverse.1 h2
  exact List.Sublist.mem h3 (List.dropWhile_sublist _)

theorem dropWhile_ne_nil_of_mem {p : Char → Bool} {l : Str} {c : Char}
    (hc : c ∈ l) (hp : ¬ p c) : l.dropWhile p ≠ [] := by
  induction l with
  | nil => cases hc
  | cons a t ih =>
    rw [List.dropWhile_cons]
    by_cases ha : p a
    · rw [if_pos ha]
      rcases List.mem_cons.1 hc with hc | hc
      · exact absurd (hc ▸ ha) hp
      · exact ih hc
    · rw [if_neg ha]
      exact List.cons_ne_nil a t

theorem strip_ne_nil {l : Str} {c : Char} (hl : l.dropWhile isWs = l)
    (hc : c ∈ l) (hcw : ¬ isWs c) : strip l ≠ [] := by
  unfold strip dropRightWhile
  rw [hl]
  intro hcon
  have := congrArg List.reverse hcon
  rw [List.reverse_reverse] at this
  exact dropWhile_ne_nil_of_mem (List.mem_reverse.2 hc) hcw this

theorem strip_eq_self {l : Str} (h1 : l.dropWhile isWs = l)
    (h2 : dropRightWhile isWs l = l) : strip l = l := by
  rw [strip, h1, h2]

theorem stripped_of_cons {c : Char} {t : Str} (h : IsStripped (c :: t)) : ¬ isWs c := by
  intro hc
  have h1 := strip_noLead h
  rw [List.dropWhile_cons, if_pos hc] at h1
  have hle := (List.dropWhile_sublist (l := t) isWs).length_le
  have := congrArg List.length h1
  simp only [List.length_cons] at this
  omega

/-!
## Codec round-trip: splitOn and findIdx lemmas
-/

theorem splitOn_ne_nil (sep : Char) (s : Str) : splitOn sep s ≠ [] := by
  cases s with
  | nil => simp [splitOn]
  | cons c cs =>
    by_cases hc : c = sep
    · simp [splitOn, hc]
    · simp only [splitOn, if_neg hc]
      split <;> simp

theorem mem_splitOn_not_sep {sep : Char} {s : Str} :
    ∀ {x : Str}, x ∈ splitOn sep s → sep ∉ x := by
  induction s with
  | nil =>
    intro x h
    simp only [splitOn, List.mem_singleton] at h
    subst h
    simp
  | cons c cs ih =>
    intro x h
    by_cases hc : c = sep
    · rw [splitOn, if_pos hc] at h
      rcases List.mem_cons.1 h with h | h
      · subst h; simp
      · exact ih h
    · rw [splitOn, if_neg hc] at h
      cases hsp : splitOn sep cs with
      | nil => exact absurd hsp (splitOn_ne_nil sep cs)
      | cons hd tl =>
        rw [hsp] at h
        rcases List.mem_cons.1 h with h | h
        · subst h
          intro hmem
          rcases List.mem_cons.1 hmem with h1 | h1
          · exact hc h1.symm
          · exact ih (hsp ▸ List.mem_cons_self hd tl) h1
        · exact ih (hsp ▸ List.mem_cons_of_mem hd h)

theorem splitOn_append {sep : Char} {a : Str} (b : Str) (h : sep ∉ a) :
    splitOn sep (a ++ sep :: b) = a :: splitOn sep b := by
  induction a with
  | nil => simp [splitOn]
  | cons c t ih =>
    simp only [List.mem_cons, not_or] at h
    have hc : ¬ c = sep := fun hh => h.1 hh.symm
    rw [List.cons_append, splitOn, if_neg hc, ih h.2]

theorem splitOn_no_sep {sep : Char} {a : Str} (h : sep ∉ a) :
    splitOn sep a = [a] := by
  induction a with
  | nil => rfl
  | cons c t ih =>
    simp only [List.mem_cons, not_or] at h
    have hc : ¬ c = sep := fun hh => h.1 hh.symm
    rw [splitOn, if_neg hc, ih h.2]

theorem findIdx_append {k : Str} (v : Str) (hk : ':' ∉ k) :
    findIdx ':' (k ++ ':' :: v) = some k.length := by
  induction k with
  | nil => simp [findIdx]
  | cons c t ih =>
    simp only [List.mem_cons, not_or] at hk
    have hc : ¬ c = ':' := fun hh => hk.1 hh.symm
    rw [List.cons_append, findIdx, if_neg hc, ih hk.2]
    rfl

theorem findIdx_none {ch : Char} {l : Str} (h : ch ∉ l) : findIdx ch l = none := by
  induction l with
  | nil => rfl
  | cons c t ih =>
    simp only [List.mem_cons, not_or] at h
    have hc : ¬ c = ch := fun hh => h.1 hh.symm
    rw [findIdx, if_neg hc, ih h.2]
    rfl

theorem findIdx_not_mem_take {ch : Char} {l : Str} :
    ∀ {i : Nat}, findIdx ch l = some i → ch ∉ l.take i := by
  induction l with
  | nil => intro i h; cases h
  | cons c t ih =>
    intro i h
    by_cases hc : c = ch
    · rw [findIdx, if_pos hc] at h
      injection h with h
      subst h
      simp
    · rw [findIdx, if_neg hc] at h
      cases hf : findIdx ch t with
      | none => rw [hf] at h; cases h
      | some j =>
        rw [hf] at h
        injection h with h
        subst h
        simp only [List.take_succ_cons, List.mem_cons, not_or]
        exact ⟨fun hh => hc hh.symm, ih hf⟩

/-!
## Codec round-trip: invariants of parse output
-/

/-- Invariants of a header dict produced by the parser: unique keys, and
every key and value is a stripped string without LF, keys also without
colon. -/
def HdrInv (hs : Headers) : Prop :=
  (dictKeys hs).Nodup ∧
  ∀ kv ∈ hs, IsStripped kv.1 ∧ ':' ∉ kv.1 ∧ '\n' ∉ kv.1 ∧
    ∃ w, kv.2 = HVal.s w ∧ IsStripped w ∧ '\n' ∉ w

/-- Invariants of the collected body pieces: non-empty, no leading
whitespace, no LF. -/
def PieceInv (bs : List Str) : Prop :=
  ∀ b ∈ bs, b ≠ [] ∧ b.dropWhile isWs = b ∧ '\n' ∉ b

theorem not_mem_of_findIdx_none {ch : Char} {l : Str}
    (h : findIdx ch l = none) : ch ∉ l := by
  induction l with
  | nil => simp
  | cons c t ih =>
    by_cases hc : c = ch
    · rw [findIdx, if_pos hc] at h
      cases h
    · rw [findIdx, if_neg hc] at h
      cases hf : findIdx ch t with
      | some j => rw [hf] at h; cases h
      | none =>
        simp only [List.mem_cons, not_or]
        exact ⟨fun hh => hc hh.symm, ih hf⟩

theorem mem_dictInsert {k : Str} {v : HVal} {hs : Headers} :
    ∀ {kv : Str × HVal}, kv ∈ dictInsert k v hs → kv = (k, v) ∨ kv ∈ hs := by
  induction hs with
  | nil =>
    intro kv h
    simp only [dictInsert, List.mem_singleton] at h
    exact Or.inl h
  | cons p t ih =>
    intro kv h
    obtain ⟨k0, v0⟩ := p
    by_cases hk : k0 = k
    · rw [dictInsert, if_pos hk] at h
      rcases List.mem_cons.1 h with h | h
      · subst hk
        subst h
        exact Or.inl rfl
      · exact Or.inr (List.mem_cons_of_mem _ h)
    · rw [dictInsert, if_neg hk] at h
      rcases List.mem_cons.1 h with h | h
      · subst h
        exact Or.inr (List.mem_cons_self _ _)
      · rcases ih h with h | h
        · exact Or.inl h
        · exact Or.inr (List.mem_cons_of_mem _ h)

theorem dictKeys_insert (k : Str) (v : HVal) (hs : Headers) :
    dictKeys (dictInsert k v hs) =
      if k ∈ dictKeys hs then dictKeys hs else dictKeys hs ++ [k] := by
  induction hs with
  | nil => simp [dictInsert, dictKeys]
  | cons p t ih =>
    obtain ⟨k0, v0⟩ := p
    by_cases hk : k0 = k
    · subst hk
      rw [dictInsert, if_pos rfl]
      have hm : k0 ∈ dictKeys ((k0, v0) :: t) := List.mem_cons_self k0 (dictKeys t)
      rw [if_pos hm]
      rfl
    · have hne : ¬ k = k0 := fun hh => hk hh.symm
      simp only [dictInsert, if_neg hk, dictKeys, List.map_cons, List.mem_cons]
      simp only [dictKeys] at ih
      by_cases hmem : k ∈ t.map (·.1)
      · simp [hmem, hne, ih]
      · simp [hmem, hne, ih]

theorem nodup_keys_insert {k : Str} {v : HVal} {hs : Headers}
    (h : (dictKeys hs).Nodup) : (dictKeys (dictInsert k v hs)).Nodup := by
  rw [dictKeys_insert]
  by_cases hmem : k ∈ dictKeys hs
  · rw [if_pos hmem]; exact h
  · rw [if_neg hmem]
    rw [List.nodup_append]
    exact ⟨h, List.nodup_singleton k, by simpa using hmem⟩

theorem hdrInv_insert {k w : Str} {hs : Headers} (hinv : HdrInv hs)
    (hk1 : IsStripped k) (hk2 : ':' ∉ k) (hk3 : '\n' ∉ k)
    (hw1 : IsStripped w) (hw2 : '\n' ∉ w) :
    HdrInv (dictInsert k (.s w) hs) := by
  constructor
  · exact nodup_keys_insert hinv.1
  · intro kv hkv
    rcases mem_dictInsert hkv with h | h
    · subst h
      exact ⟨hk1, hk2, hk3, w, rfl, hw1, hw2⟩
    · exact hinv.2 kv h

theorem headData_inv {f : Str} {hs : Headers} (hf : '\n' ∉ f)
    (hinv : HdrInv hs) : HdrInv (headData f hs) := by
  unfold headData
  cases hidx : findIdx ':' f with
  | none =>
    have hcol : ':' ∉ f := not_mem_of_findIdx_none hidx
    refine hdrInv_insert hinv ?_ ?_ ?_ ?_ ?_
    · rw [strip_idem]; exact stripped_strip _
    · rw [strip_idem]
      intro hmem
      exact hcol ((List.dropLast_sublist f).mem (strip_mem_subset hmem))
    · rw [strip_idem]
      intro hmem
      exact hf ((List.dropLast_sublist f).mem (strip_mem_subset hmem))
    · rw [strip_idem]; exact stripped_strip _
    · rw [strip_idem]
      intro hmem
      exact hf (strip_mem_subset hmem)
  | some i =>
    cases i with
    | zero => exact hinv
    | succ j =>
      refine hdrInv_insert hinv ?_ ?_ ?_ ?_ ?_
      · rw [strip_idem]; exact stripped_strip _
      · rw [strip_idem]
        intro hmem
        exact findIdx_not_mem_take hidx (strip_mem_subset hmem)
      · rw [strip_idem]
        intro hmem
        exact hf (List.take_subset _ _ (strip_mem_subset hmem))
      · rw [strip_idem]; exact stripped_strip _
      · rw [strip_idem]
        intro hmem
        exact hf (List.drop_subset _ _ (strip_mem_subset hmem))

theorem parseFields_inv :
    ∀ (fields : List Str) (hs : Headers) (bs : List Str) (inB : Bool),
    (∀ x ∈ fields, '\n' ∉ x) → HdrInv hs → PieceInv bs →
    HdrInv (parseFields fields hs bs inB).1 ∧ PieceInv (parseFields fields hs bs inB).2 := by
  intro fields
  induction fields with
  | nil => intro hs bs inB _ h1 h2; exact ⟨h1, h2⟩
  | cons f rest ih =>
    intro hs bs inB hnl h1 h2
    have hf : '\n' ∉ f := hnl f (List.mem_cons_self _ _)
    have hrest : ∀ x ∈ rest, '\n' ∉ x := fun x hx => hnl x (List.mem_cons_of_mem _ hx)
    rw [parseFields]
    by_cases hb : strip f = []
    · rw [if_pos hb]
      exact ih hs bs true hrest h1 h2
    · rw [if_neg hb]
      cases inB with
      | true =>
        simp only [if_true]
        refine ih hs (bs ++ [strip f]) true hrest h1 ?_
        intro b hbm
        rcases List.mem_append.1 hbm with hbm | hbm
        · exact h2 b hbm
        · rw [List.mem_singleton] at hbm
          subst hbm
          exact ⟨hb, dropWhile_strip f, fun hmem => hf (strip_mem_subset hmem)⟩
      | false =>
        rw [if_neg (by simp)]
        exact ih (headData f hs) bs false hrest (headData_inv hf h1) h2

theorem from_text_inv (B : Str) :
    '\n' ∉ (Frame.from_text B).cmd ∧
    HdrInv (Frame.from_text B).headers ∧
    '\n' ∉ (Frame.from_text B).body ∧
    '\x00' ∉ (Frame.from_text B).body := by
  unfold Frame.from_text parse_from_text
  cases hsp : splitOn '\n' B with
  | nil => exact absurd hsp (splitOn_ne_nil _ _)
  | cons cmd rest =>
    dsimp only
    have hcmd : '\n' ∉ cmd :=
      mem_splitOn_not_sep (hsp ▸ List.mem_cons_self cmd rest)
    have hrest : ∀ x ∈ rest, '\n' ∉ x := fun x hx =>
      mem_splitOn_not_sep (hsp ▸ List.mem_cons_of_mem cmd hx)
    have hpf := parseFields_inv rest [] [] false hrest
      ⟨List.nodup_nil, by simp⟩ (by intro b hb; cases hb)
    refine ⟨hcmd, hpf.1, ?_, ?_⟩
    · intro hmem
      have h1 := List.mem_of_mem_filter hmem
      rw [List.mem_flatten] at h1
      obtain ⟨piece, hp1, hp2⟩ := h1
      exact (hpf.2 piece hp1).2.2 hp2
    · intro hmem
      exact absurd (List.of_mem_filter hmem) (by decide)

/-!
## Codec round-trip: reconstruction of the packed text
-/

theorem noLead_head {p : Char → Bool} {c : Char} {t : Str}
    (h : (c :: t).dropWhile p = c :: t) : ¬ p c := by
  intro hc
  rw [List.dropWhile_cons, if_pos hc] at h
  have hle := (List.dropWhile_sublist (l := t) p).length_le
  have := congrArg List.length h
  simp only [List.length_cons] at this
  omega

theorem dropWhile_append_last {p : Char → Bool} {b : Str} {a : Char}
    (hb : b.dropWhile p = b) (ha : ¬ p a) :
    (b ++ [a]).dropWhile p = b ++ [a] := by
  cases b with
  | nil => simp [List.dropWhile_cons, ha]
  | cons c t =>
    have hc := noLead_head hb
    simp [List.dropWhile_cons, hc]

theorem dropRightWhile_append_last {p : Char → Bool} {b : Str} {a : Char}
    (ha : ¬ p a) : dropRightWhile p (b ++ [a]) = b ++ [a] := by
  unfold dropRightWhile
  rw [List.reverse_append]
  simp only [List.reverse_cons, List.reverse_nil, List.nil_append, List.cons_append,
    List.nil_append]
  rw [List.dropWhile_cons, if_neg ha]
  simp

theorem strip_append_nul {b : Str} (hb : b.dropWhile isWs = b) :
    strip (b ++ ['\x00']) = b ++ ['\x00'] :=
  strip_eq_self (dropWhile_append_last hb (by decide))
    (dropRightWhile_append_last (by decide))

theorem dictInsert_append {k : Str} {v : HVal} {hs : Headers}
    (h : k ∉ dictKeys hs) : dictInsert k v hs = hs ++ [(k, v)] := by
  induction hs with
  | nil => rfl
  | cons p t ih =>
    obtain ⟨k0, v0⟩ := p
    simp only [dictKeys, List.map_cons, List.mem_cons, not_or] at h
    have hk : ¬ k0 = k := fun hh => h.1 hh.symm
    rw [dictInsert, if_neg hk, ih h.2]
    rfl

theorem filter_nul_append {b : Str} (h : '\x00' ∉ b) :
    (b ++ ['\x00']).filter (fun c => c ≠ '\x00') = b := by
  rw [List.filter_append]
  have h1 : b.filter (fun c => c ≠ '\x00') = b := by
    rw [List.filter_eq_self]
    intro a ha
    have hne : a ≠ '\x00' := fun hh => h (hh ▸ ha)
    simpa using hne
  rw [h1]
  simp

theorem splitOn_headerChunk (b : Str) (hb : '\n' ∉ b) :
    ∀ hs : Headers,
    (∀ kv ∈ hs, '\n' ∉ kv.1 ∧ ∃ w, kv.2 = HVal.s w ∧ '\n' ∉ w) →
    splitOn '\n' (headerChunk hs ++ '\n' :: b ++ ['\x00']) =
      (hs.map (fun kv => kv.1 ++ ':' :: kv.2.render)) ++ ([] :: [b ++ ['\x00']]) := by
  intro hs
  induction hs with
  | nil =>
    intro _
    rw [headerChunk, List.nil_append, List.map_nil, List.nil_append]
    rw [show splitOn '\n' ('\n' :: b ++ ['\x00']) = [] :: splitOn '\n' (b ++ ['\x00']) from rfl]
    rw [splitOn_no_sep]
    intro hmem
    rcases List.mem_append.1 hmem with hmem | hmem
    · exact hb hmem
    · rw [List.mem_singleton] at hmem
      cases hmem
  | cons kv t ih =>
    intro hinv
    obtain ⟨hk, w, hw, hwn⟩ := hinv kv (List.mem_cons_self _ _)
    have hline : '\n' ∉ kv.1 ++ ':' :: kv.2.render := by
      intro hmem
      rcases List.mem_append.1 hmem with hmem | hmem
      · exact hk hmem
      · rcases List.mem_cons.1 hmem with hmem | hmem
        · cases hmem
        · rw [hw] at hmem
          exact hwn hmem
    rw [headerChunk]
    rw [show kv.1 ++ ':' :: kv.2.render ++ '\n' :: headerChunk t ++ '\n' :: b ++ ['\x00'] =
      (kv.1 ++ ':' :: kv.2.render) ++ '\n' :: (headerChunk t ++ '\n' :: b ++ ['\x00']) by
      simp [List.append_assoc]]
    rw [splitOn_append _ hline]
    rw [ih (fun x hx => hinv x (List.mem_cons_of_mem _ hx))]
    simp

theorem take_colon (k w : Str) : (k ++ ':' :: w).take k.length = k :=
  List.take_left k (':' :: w)

theorem drop_colon (k w : Str) : (k ++ ':' :: w).drop (k.length + 1) = w := by
  have h : k ++ ':' :: w = (k ++ [':']) ++ w := by simp
  have h2 : (k ++ [':']).length = k.length + 1 := by simp
  rw [h, ← h2, List.drop_left]

theorem headData_line (k w : Str) (acc : Headers) (hk0 : k ≠ [])
    (hk1 : IsStripped k) (hk2 : ':' ∉ k) (hw1 : IsStripped w) :
    headData (k ++ ':' :: w) acc = dictInsert k (.s w) acc := by
  cases k with
  | nil => exact absurd rfl hk0
  | cons c kt =>
    have hfi : findIdx ':' ((c :: kt) ++ ':' :: w) = some (Nat.succ kt.length) :=
      findIdx_append w hk2
    simp only [headData, hfi]
    rw [show Nat.succ kt.length = (c :: kt).length from rfl]
    rw [take_colon, drop_colon]
    rw [strip_idem, strip_idem, hk1, hw1]

theorem parseFields_header_lines :
    ∀ (hs : Headers) (acc : Headers) (bs : List Str) (rest : List Str),
    (dictKeys hs).Nodup →
    (∀ kv ∈ hs, kv.1 ≠ [] ∧ IsStripped kv.1 ∧ ':' ∉ kv.1 ∧
      ∃ w, kv.2 = HVal.s w ∧ IsStripped w) →
    (∀ kv ∈ hs, kv.1 ∉ dictKeys acc) →
    parseFields ((hs.map (fun kv => kv.1 ++ ':' :: kv.2.render)) ++ rest) acc bs false =
      parseFields rest (acc ++ hs) bs false := by
  intro hs
  induction hs with
  | nil =>
    intro acc bs rest _ _ _
    simp
  | cons kv t ih =>
    intro acc bs rest hnd hinv hdisj
    obtain ⟨hk0, hk1, hk2, w, hw, hw1⟩ := hinv kv (List.mem_cons_self _ _)
    obtain ⟨k, v⟩ := kv
    dsimp only at hk0 hk1 hk2 hw
    subst hw
    cases k with
    | nil => exact absurd rfl hk0
    | cons c kt =>
      have hcw : ¬ isWs c := stripped_of_cons hk1
      have hfield : ((c :: kt) ++ ':' :: w).dropWhile isWs = (c :: kt) ++ ':' :: w := by
        rw [List.cons_append, List.dropWhile_cons, if_neg hcw]
      have hstrip : strip ((c :: kt) ++ ':' :: w) ≠ [] :=
        strip_ne_nil hfield (by exact List.mem_cons_self c _) hcw
      rw [List.map_cons, List.cons_append, parseFields]
      dsimp only [HVal.render]
      rw [if_neg hstrip, if_neg (by simp)]
      rw [headData_line (c :: kt) w acc hk0 hk1 hk2 hw1]
      have hknotin : (c :: kt) ∉ dictKeys acc :=
        hdisj (c :: kt, HVal.s w) (List.mem_cons_self _ _)
      rw [dictInsert_append hknotin]
      have hndt : (dictKeys t).Nodup := by
        simp only [dictKeys, List.map_cons, List.nodup_cons] at hnd
        exact hnd.2
      have hknott : (c :: kt) ∉ dictKeys t := by
        simp only [dictKeys, List.map_cons, List.nodup_cons] at hnd
        exact hnd.1
      have hdisj' : ∀ kv ∈ t, kv.1 ∉ dictKeys (acc ++ [(c :: kt, HVal.s w)]) := by
        intro kv hkv
        simp only [dictKeys, List.map_append, List.map_cons, List.map_nil,
          List.mem_append, List.mem_singleton, not_or]
        refine ⟨hdisj kv (List.mem_cons_of_mem _ hkv), ?_⟩
        intro hh
        exact hknott (hh ▸ (List.mem_map_of_mem (·.1) hkv))
      have hih := ih (acc ++ [(c :: kt, HVal.s w)]) bs rest hndt
        (fun kv hkv => hinv kv (List.mem_cons_of_mem _ hkv)) hdisj'
      rw [List.append_assoc] at hih
      exact hih

theorem parseFields_tail (acc : Headers) (b : Str)
    (hb : b.dropWhile isWs = b) :
    parseFields ([] :: [b ++ ['\x00']]) acc [] false = (acc, [b ++ ['\x00']]) := by
  rw [parseFields, if_pos (show strip ([] : Str) = [] from rfl)]
  rw [parseFields]
  have hsg : strip (b ++ ['\x00']) = b ++ ['\x00'] := strip_append_nul hb
  have hne : strip (b ++ ['\x00']) ≠ [] := by
    rw [hsg]; simp
  rw [if_neg hne, if_pos rfl, hsg]
  rfl

/-- C5 amended: the codec round-trip holds for every frame F the codec
produces from bytes B PROVIDED that F already carries a `content-length`
header (otherwise `pack` adds an integer one that reparses as a string),
that no header name of F is empty (a name whose colon sits first on the
line is dropped on reparse), and that F's body is free of surrounding
whitespace (NUL deletion can expose whitespace that the reparse strips):
then `pack` leaves F unchanged and parsing the packed text yields F
exactly — same command, same headers, same body. -/
theorem c5_roundtrip_amended (B : Str)
    (h1 : dictGet (chars "content-length") (Frame.from_text B).headers ≠ none)
    (h2 : ∀ kv ∈ (Frame.from_text B).headers, kv.1 ≠ [])
    (h3 : IsStripped (Frame.from_text B).body) :
    (Frame.from_text B).pack.1 = Frame.from_text B ∧
    Frame.from_text ((Frame.from_text B).pack.2) = Frame.from_text B := by
  obtain ⟨hcmd, ⟨hnd, hkv⟩, hbnl, hbnul⟩ := from_text_inv B
  set F := Frame.from_text B with hF
  have hsd : dictSetdefault (chars "content-length") (.n F.body.length) F.headers =
      F.headers := by
    unfold dictSetdefault
    cases hg : dictGet (chars "content-length") F.headers with
    | none => exact absurd hg h1
    | some w => rfl
  have hpack1 : F.pack.1 = F := by
    unfold Frame.pack
    rw [hsd]
  have hpack2 : F.pack.2 =
      F.cmd ++ '\n' :: headerChunk F.headers ++ '\n' :: F.body ++ ['\x00'] := by
    unfold Frame.pack
    rw [hsd]
  refine ⟨hpack1, ?_⟩
  rw [hpack2]
  have hsc := splitOn_headerChunk F.body hbnl F.headers
    (fun kv hk => ⟨(hkv kv hk).2.2.1, (hkv kv hk).2.2.2.choose,
      (hkv kv hk).2.2.2.choose_spec.1,
      (hkv kv hk).2.2.2.choose_spec.2.2⟩)
  have hsplit : splitOn '\n'
      (F.cmd ++ '\n' :: headerChunk F.headers ++ '\n' :: F.body ++ ['\x00']) =
      F.cmd :: ((F.headers.map fun kv => kv.1 ++ ':' :: kv.2.render) ++
        ([] :: [F.body ++ ['\x00']])) := by
    have heq : (F.cmd ++ '\n' :: headerChunk F.headers ++ '\n' :: F.body ++ ['\x00'] : Str) =
        F.cmd ++ '\n' :: (headerChunk F.headers ++ '\n' :: F.body ++ ['\x00']) := by
      simp [List.cons_append, List.append_assoc]
    rw [heq, splitOn_append _ hcmd, hsc]
  unfold Frame.from_text parse_from_text
  rw [hsplit]
  dsimp only
  rw [parseFields_header_lines F.headers [] [] ([] :: [F.body ++ ['\x00']]) hnd
    (fun kv hk => ⟨h2 kv hk, (hkv kv hk).1, (hkv kv hk).2.1,
      (hkv kv hk).2.2.2.choose, (hkv kv hk).2.2.2.choose_spec.1,
      (hkv kv hk).2.2.2.choose_spec.2.1⟩)
    (fun kv _ => by simp [dictKeys])]
  rw [List.nil_append]
  rw [parseFields_tail F.headers F.body (strip_noLead h3)]
  dsimp only
  rw [show ([F.body ++ ['\x00']] : List Str).flatten = F.body ++ ['\x00'] by simp]
  rw [filter_nul_append hbnul]

/-- C5 counterexample: the round-trip fails on three families of inputs,
one witness each. (a) Without a `content-length` header, `pack` inserts an
integer value via `setdefault`, while reparsing yields the decimal string,
so the reparsed frame differs from both the mutated frame and the original
(Python dict equality distinguishes `5` from `'5'`). (b) A header line whose
name strips to the empty string parses into a key `''` that `pack` writes
as `:value`, which the reparser drops (`if index:` is false at 0). (c) A
body whose NUL deletion exposes surrounding whitespace is stripped on
reparse. -/
theorem c5_roundtrip_counterexample :
    (Frame.from_text ((Frame.from_text (chars "SEND\na:b\n\nhello\x00")).pack.2)).eqPy
        ((Frame.from_text (chars "SEND\na:b\n\nhello\x00")).pack.1) = false ∧
    (Frame.from_text ((Frame.from_text (chars "SEND\na:b\n\nhello\x00")).pack.2)).eqPy
        (Frame.from_text (chars "SEND\na:b\n\nhello\x00")) = false ∧
    (Frame.from_text
        ((Frame.from_text (chars "SEND\ncontent-length:2\n :v\n\nab\x00")).pack.2)).eqPy
        ((Frame.from_text (chars "SEND\ncontent-length:2\n :v\n\nab\x00")).pack.1) = false ∧
    (Frame.from_text
        ((Frame.from_text (chars "SEND\ncontent-length:2\n\n\x00 a\x00")).pack.2)).eqPy
        ((Frame.from_text (chars "SEND\ncontent-length:2\n\n\x00 a\x00")).pack.1) = false := by
  refine ⟨by decide, by decide, by decide, by decide⟩

instance IsStripped.dec (l : Str) : Decidable (IsStripped l) :=
  inferInstanceAs (Decidable (strip l = l))

/-- Witness for C5 at a concrete frame satisfying all three side
conditions. -/
theorem c5_roundtrip_amended_witness :
    (dictGet (chars "content-length")
        (Frame.from_text (chars "SEND\ncontent-length:5\ndestination:/queue/a\n\nhello\x00")).headers ≠
      none) ∧
    (∀ kv ∈ (Frame.from_text
        (chars "SEND\ncontent-length:5\ndestination:/queue/a\n\nhello\x00")).headers,
      kv.1 ≠ []) ∧
    IsStripped (Frame.from_text
        (chars "SEND\ncontent-length:5\ndestination:/queue/a\n\nhello\x00")).body ∧
    ((Frame.from_text (chars "SEND\ncontent-length:5\ndestination:/queue/a\n\nhello\x00")).pack.1 =
        Frame.from_text (chars "SEND\ncontent-length:5\ndestination:/queue/a\n\nhello\x00") ∧
      Frame.from_text
          ((Frame.from_text (chars "SEND\ncontent-length:5\ndestination:/queue/a\n\nhello\x00")).pack.2) =
        Frame.from_text (chars "SEND\ncontent-length:5\ndestination:/queue/a\n\nhello\x00")) :=
  ⟨by decide, by decide, by decide,
    c5_roundtrip_amended (chars "SEND\ncontent-length:5\ndestination:/queue/a\n\nhello\x00")
      (by decide) (by decide) (by decide)⟩
